import Mathlib

/-!
Shallow embedding of `lazy::vector` (vector.h).

The class template `lazy::vector<T, size_type>` keeps two counters `n_` (size) and
`m_` (capacity) of the unsigned type `size_type` and a raw pointer `data_` to a block
obtained from `std::malloc` / `std::realloc`.

Modelling choices.

* `w` is the bit width of `size_type` (8, 16, 32 or 64).  Counters are natural numbers;
  every store into a counter is reduced modulo `2 ^ w`.  Arithmetic on counters follows
  the integral promotions with a 32-bit `int`: for `w < 32` the operands are promoted to
  `int` and `x + 1` is exact, for `w ≥ 32` it is computed modulo `2 ^ w`.
* A heap block is a list of slots, one per element; a slot is `none` while no element
  has been constructed in it.  `data_ = none` is the null pointer.
* The allocator is a parameter: each operation that calls `malloc` / `realloc` once takes
  a flag `ok` telling whether that call returns a block (`true`) or a null pointer.
  The sized constructor in its general form (`ctor_args`) computes its byte count
  `sizeof(T) * n` in the 64-bit `size_t`; for the other requests, which grow or copy an
  existing array, the byte count is assumed to fit `size_t`.
* Properties of the element type that the source uses are parameters: `sz` is
  `sizeof(T)` and `trivial` is `std::is_trivially_copyable_v<T>`.
* A run ends normally, by a thrown exception (which records the object as it is left),
  or in undefined behaviour: an access through the null pointer or outside the block,
  or a read of an unconstructed slot.
-/

namespace lazy

/-- Heap block of element slots; a slot is `none` until an element is constructed in it. -/
abbrev Block (T : Type) := List (Option T)

/-- Data members of `lazy::vector<T, size_type>`, `w` being the width of `size_type`:
`size_type n_, m_; T *data_;`. -/
structure vector (T : Type) (w : Nat) where
  n_ : Nat
  m_ : Nat
  data_ : Option (Block T)
deriving DecidableEq

/-- Abnormal ends of a member function: the two exceptions the source throws, each with
the object as the throw leaves it, and undefined behaviour. -/
inductive Fault (T : Type) (w : Nat) where
  | bad_alloc (s : vector T w)
  | runtime_error (s : vector T w)
  | undefined
deriving DecidableEq

variable {T : Type} {w : Nat} {Args : Type}

/-- Conversion of a value to the `w`-bit unsigned `size_type`. -/
def wrap (w x : Nat) : Nat := x % 2 ^ w

/-- Value of the expression `x + 1` for a counter `x` of type `size_type`: exact after
promotion to `int` when `size_type` is narrower than `int`, modulo `2 ^ w` otherwise. -/
def succ_promoted (w x : Nat) : Nat := if w < 32 then x + 1 else (x + 1) % 2 ^ w

/-- A successful `std::malloc(sizeof(T) * k)`: `k` unconstructed slots. -/
def malloc (T : Type) (k : Nat) : Block T := List.replicate k none

/-- A successful `std::realloc(p, sizeof(T) * k)`: a block of `k` slots whose first
`min k (old slot count)` slots keep their contents, the rest being unconstructed.
`realloc(nullptr, s)` is `malloc(s)`.  A request of zero bytes is taken to be served like
any other; a library that frees the block and returns the null pointer for it is not
modelled (the request arises only in `shrink_to_fit` with `size() == 0 < capacity()`). -/
def realloc (p : Option (Block T)) (k : Nat) : Block T :=
  (p.getD []).take k ++ List.replicate (k - (p.getD []).length) none

/-- Placement construction `new(p + i) T(x)`: undefined through the null pointer or
outside the block. -/
def construct_at (p : Option (Block T)) (i : Nat) (x : T) : Except (Fault T w) (Block T) :=
  match p with
  | none => throw Fault.undefined
  | some b => if i < b.length then pure (b.set i (some x)) else throw Fault.undefined

/-- Content of slot `i` of the block `p` points to, if there is a constructed one. -/
def slot (p : Option (Block T)) (i : Nat) : Option T :=
  match p with
  | none => none
  | some b => b.getD i none

/-- Read of `p[i]`: undefined unless slot `i` is in the block and constructed. -/
def load (p : Option (Block T)) (i : Nat) : Except (Fault T w) T :=
  match slot p i with
  | some x => pure x
  | none => throw Fault.undefined

namespace vector

/-- Method `size()`: `return n_;`. -/
def size (v : vector T w) : Nat := v.n_

/-- Method `capacity()`: `return m_;`. -/
def capacity (v : vector T w) : Nat := v.m_

/-- Constructed element at index `i` of the buffer, if any. -/
def elem (v : vector T w) (i : Nat) : Option T := slot v.data_ i

/-- Read through `operator[](idx)`: `return data_[idx];`. -/
def index (v : vector T w) (i : Nat) : Except (Fault T w) T := load v.data_ i

/-- Data-model invariant "slots `[0, n_)` are live": each lies in the block and holds a
constructed element. -/
def live (v : vector T w) : Prop := ∀ i, i < v.n_ → (v.elem i).isSome = true

instance (v : vector T w) : Decidable v.live := by
  unfold live; exact inferInstance

/-- Method `back()`: `return data_[n_ - 1];`, modelled by the index it refers to.
`n_ - 1` is `-1` after promotion to `int` when `w < 32` and `n_ = 0`; it wraps to
`2 ^ w - 1` when `w ≥ 32`.  Forming the reference is undefined outside the block. -/
def back (v : vector T w) : Except (Fault T w) Nat :=
  match v.data_ with
  | none => throw Fault.undefined
  | some b =>
    if v.n_ = 0 ∧ w < 32 then throw Fault.undefined
    else
      let i := if v.n_ = 0 then 2 ^ w - 1 else v.n_ - 1
      if i < b.length then pure i else throw Fault.undefined

/-- Loop `for (i = lo; i < lo + k; ++i) new(data_ + i) T(x);` on the block: `k` placement
constructions from index `lo` upwards. -/
def construct_range (x : T) : Nat → Nat → Option (Block T) → Except (Fault T w) (Option (Block T))
  | 0, _, p => pure p
  | k + 1, i, p => do
    let b ← construct_at p i x
    construct_range x k (i + 1) (some b)

/-- Constructor `vector(size_type n = 0, bool init, FactoryArgs&&... args)`:
`n_{n}, m_{n}, data_{n ? malloc(sizeof(T) * n) : nullptr}`, then, if `init`,
`for (i = 0; i < n_; ++i) new(data_ + i) T(args...)`.  `n` is a `size_type` value.  This
is the call with an argument pack that constructing an element leaves unchanged (no
argument, lvalues, trivially copyable values), `x` being the value `T(args...)`, and with
a byte count that fits `size_t`; `ctor_args` is the general form and agrees with it in
this case (`ctor_args_eq_ctor`). -/
def ctor (ok : Bool) (n : Nat) (init : Bool) (x : T) : Except (Fault T w) (vector T w) := do
  let d : Option (Block T) := if n ≠ 0 then (if ok then some (malloc T n) else none) else none
  let d ← if init then construct_range x n 0 d else pure d
  pure { n_ := n, m_ := n, data_ := d }

/-- Loop `for (i = lo; i < lo + k; ++i) new(data_ + i) T(std::forward<FactoryArgs>(args)...);`
with the pack forwarded afresh at every iteration.  `make a` is the element `T(args...)`
built from the pack in state `a`, together with the state the construction leaves the
pack in: moved-from for an rvalue of class type, unchanged for lvalues and trivially
copyable values. -/
def forward_range (make : Args → T × Args) :
    Nat → Nat → Option (Block T) → Args → Except (Fault T w) (Option (Block T))
  | 0, _, p, _ => pure p
  | k + 1, i, p, a => do
    let b ← construct_at p i (make a).1
    forward_range make k (i + 1) (some b) (make a).2

/-- Constructor `vector(size_type n = 0, bool init, FactoryArgs&&... args)` in general:
`n_{n}, m_{n}, data_{n ? malloc(sizeof(T) * n) : nullptr}`, then, if `init`,
`for (i = 0; i < n_; ++i) new(data_ + i) T(std::forward<FactoryArgs>(args)...)`.
`sz` is `sizeof(T)`; the byte count `sizeof(T) * n` is computed in the 64-bit `size_t`
and the block has the slots that fit the bytes obtained.  `make` and `a` are the
construction from the pack and the pack as passed (see `forward_range`). -/
def ctor_args (sz : Nat) (ok : Bool) (n : Nat) (init : Bool) (make : Args → T × Args)
    (a : Args) : Except (Fault T w) (vector T w) := do
  let d : Option (Block T) :=
    if n ≠ 0 then (if ok then some (malloc T (sz * n % 2 ^ 64 / sz)) else none) else none
  let d ← if init then forward_range make n 0 d a else pure d
  pure { n_ := n, m_ := n, data_ := d }

/-- Loop of `std::copy(first, first + k, d_first)` / `std::move(...)` between two blocks:
`dst[i] = src[i]` for the `k` indices from `i` upwards, each assignment taking effect
like a construction.  That is what the assignment does when the destination slot holds
an element, and for trivially copyable `T` (a copy of bytes) on any slot of the block. -/
def copy_range (src : Option (Block T)) : Nat → Nat → Option (Block T) →
    Except (Fault T w) (Option (Block T))
  | 0, _, dst => pure dst
  | k + 1, i, dst => do
    let x ← load src i
    let b ← construct_at dst i x
    copy_range src k (i + 1) (some b)

/-- Assignment `p[i] = x` through `operator=` of `T`: undefined through the null pointer
or outside the block.  On a slot that holds no constructed element (raw storage) it is
defined only when `T` is trivially copyable (`trivial`), where it copies bytes; a
non-trivial `operator=` would act on an object that does not exist. -/
def assign_at (trivial : Bool) (p : Option (Block T)) (i : Nat) (x : T) :
    Except (Fault T w) (Block T) :=
  match p with
  | none => throw Fault.undefined
  | some b =>
    if i < b.length then
      if (b.getD i none).isSome = true ∨ trivial = true then pure (b.set i (some x))
      else throw Fault.undefined
    else throw Fault.undefined

/-- Loop of `std::copy(first, first + k, d_first)` as a sequence of assignments
`dst[i] = src[i]` for the `k` indices from `i` upwards. -/
def assign_range (trivial : Bool) (src : Option (Block T)) :
    Nat → Nat → Option (Block T) → Except (Fault T w) (Option (Block T))
  | 0, _, dst => pure dst
  | k + 1, i, dst => do
    let x ← load src i
    let b ← assign_at trivial dst i x
    assign_range trivial src k (i + 1) (some b)

/-- Copy constructor `vector(const vector &other)`:
`n_(other.n_), m_(other.n_), data_{malloc(sizeof(T) * m_)}` and
`std::copy(cbegin(other), cend(other), begin())`: the elements are assigned, not
constructed, onto the slots of the fresh block.  `trivial` is
`std::is_trivially_copyable_v<T>`.  `other` is only read. -/
def ctor_copy (trivial : Bool) (ok : Bool) (other : vector T w) :
    Except (Fault T w) (vector T w) := do
  let d : Option (Block T) := if ok then some (malloc T other.n_) else none
  let d ← assign_range trivial other.data_ other.n_ 0 d
  pure { n_ := other.n_, m_ := other.n_, data_ := d }

/-- Constructor `vector(std::initializer_list<T> il)`:
`n_(il.size()), m_(il.size()), data_{n_ ? malloc(sizeof(T) * n_) : nullptr}` and
`std::move(il.begin(), il.end(), std::begin(*this))`.  `il.size()` is a `size_t`
converted to `size_type`; all `il.size()` elements are moved.  The move-assignments onto
the fresh block are modelled for trivially copyable `T` (see `copy_range`). -/
def ctor_list (ok : Bool) (il : List T) : Except (Fault T w) (vector T w) := do
  let n := wrap w il.length
  let d : Option (Block T) := if n ≠ 0 then (if ok then some (malloc T n) else none) else none
  let d ← copy_range (some (il.map some)) il.length 0 d
  pure { n_ := n, m_ := n, data_ := d }

/-- Method `reserve(size_t newsize)`:
`if (newsize > m_) { tmp = realloc(data_, sizeof(T) * newsize);
 if (tmp == nullptr) throw std::bad_alloc(); data_ = tmp; }`.
No statement of the body assigns `m_`. -/
def reserve (ok : Bool) (v : vector T w) (newsize : Nat) : Except (Fault T w) (vector T w) :=
  if newsize > v.m_ then
    if ok then pure { v with data_ := some (realloc v.data_ newsize) }
    else throw (Fault.bad_alloc v)
  else pure v

/-- Guard `n_ + 1 > m_` of `emplace_back` and `push_back`: the branch that reallocates. -/
def grows (v : vector T w) : Bool := decide (succ_promoted w v.n_ > v.m_)

/-- Tail shared by `emplace_back` and `push_back`:
`new(data_ + n_++) T(args...); return back();`.  The result is the object together with
the index of the element the returned reference denotes. -/
def construct_back (v : vector T w) (x : T) : Except (Fault T w) (vector T w × Nat) := do
  let b ← construct_at v.data_ v.n_ x
  let v1 : vector T w := { v with data_ := some b, n_ := wrap w (v.n_ + 1) }
  let i ← back v1
  pure (v1, i)

/-- Method `emplace_back(args...)`; `x` is the value `T(args...)`.
`if (n_ + 1 > m_) { data_ = realloc(data_, sizeof(T) * (n_ + 1));` then, when `NDEBUG`
is not set, `if (m_ + 1 < m_) throw std::runtime_error(...)`, otherwise (`ndebug`)
`++m_; }` followed by the shared tail.  The result of `realloc` is not tested. -/
def emplace_back (ndebug : Bool) (ok : Bool) (v : vector T w) (x : T) :
    Except (Fault T w) (vector T w × Nat) := do
  let v1 ←
    if grows v then
      let v0 : vector T w :=
        { v with data_ := if ok then some (realloc v.data_ (succ_promoted w v.n_)) else none }
      if ndebug then
        pure { v0 with m_ := wrap w (v0.m_ + 1) }
      else if succ_promoted w v0.m_ < v0.m_ then
        throw (Fault.runtime_error v0)
      else pure v0
    else pure v
  construct_back v1 x

/-- Rounding of a natural number to the nearest value with at most 53 significant bits,
ties to even: conversion of an integer to `double`, and rounding of an exact product. -/
def round53 (x : Nat) : Nat :=
  if x < 2 ^ 53 then x
  else
    let e := Nat.log2 x - 52
    let q := x / 2 ^ e
    let r := x % 2 ^ e
    let h := 2 ^ (e - 1)
    (if r > h ∨ (r = h ∧ q % 2 = 1) then q + 1 else q) * 2 ^ e

/-- Expression `static_cast<size_type>(m_ * PUSH_BACK_RESIZING_FACTOR)` with the factor
`1.25 = 5/4`: `m_` is converted to `double` (`round53 m`), the product is rounded to a
`double` (its value is `round53 (5 * round53 m) / 4`, scaling by a power of two being
exact) and truncated towards zero; the conversion is undefined when the truncated value
does not fit `size_type`.  For `5 * m < 2 ^ 53` the result is `5 * m / 4`. -/
def scaled (w m : Nat) : Option Nat :=
  let t := round53 (5 * round53 m) / 4
  if t < 2 ^ w then some t else none

/-- Method `push_back(args...)`; `x` is the value `T(args...)`.
`if (n_ + 1 > m_) reserve(std::max(static_cast<size_type>(m_ * 1.25), m_ + 1));`
followed by the shared tail.  The call of `std::max` has both arguments of one type only
when `size_type` is not narrower than `int`, so the function exists for `w ≥ 32`. -/
def push_back (ok : Bool) (v : vector T w) (x : T) : Except (Fault T w) (vector T w × Nat) := do
  let v1 ←
    if grows v then
      match scaled w v.m_ with
      | none => throw Fault.undefined
      | some t => reserve ok v (max t (succ_promoted w v.m_))
    else pure v
  construct_back v1 x

/-- Method `resize(size_t newsize, bool init = true, Args&&... args)`:
`reserve(newsize); if (init) for (; n_ < m_;) new(data_ + n_++) T(args...);`.
The loop runs `m_ - n_` times and leaves `n_ = m_` when `n_ < m_`.  `x` is the value
`T(args...)` of a pack that constructing an element leaves unchanged. -/
def resize (ok : Bool) (v : vector T w) (newsize : Nat) (init : Bool) (x : T) :
    Except (Fault T w) (vector T w) := do
  let v1 ← reserve ok v newsize
  if init ∧ v1.n_ < v1.m_ then
    let d ← construct_range x (v1.m_ - v1.n_) v1.n_ v1.data_
    pure { v1 with data_ := d, n_ := v1.m_ }
  else pure v1

/-- Method `shrink_to_fit()`:
`if (m_ > n_) { tmp = realloc(data_, sizeof(T) * n_);
 if (tmp == nullptr) throw std::bad_alloc(); data_ = tmp; m_ = n_; }`. -/
def shrink_to_fit (ok : Bool) (v : vector T w) : Except (Fault T w) (vector T w) :=
  if v.m_ > v.n_ then
    if ok then pure { v with data_ := some (realloc v.data_ v.n_), m_ := v.n_ }
    else throw (Fault.bad_alloc v)
  else pure v

/-- Loop of `operator==`: `for (i = 0; i < n_; ++i) if (data_[i] != other[i]) return false;
return true;` with `k` iterations left from index `i`.  `ne` is `operator!=` of `T`.  The
counter has the common type of both counter types, which holds every value up to `n_`. -/
def eq_loop (ne : T → T → Bool) (a b : Option (Block T)) : Nat → Nat → Except (Fault T w) Bool
  | 0, _ => pure true
  | k + 1, i => do
    let x ← load a i
    let y ← load b i
    if ne x y then pure false else eq_loop ne a b k (i + 1)

/-- Method `operator==(const vector<T, osize_type> &other)`:
`if (size() != other.size()) return false;` then the element loop. -/
def eq {w2 : Nat} (ne : T → T → Bool) (a : vector T w) (other : vector T w2) :
    Except (Fault T w) Bool :=
  if a.size ≠ other.size then pure false
  else eq_loop ne a.data_ other.data_ a.n_ 0

/-- Move constructor `vector(vector &&other)`:
`n_(other.n_), m_(other.m_), data_(other.data_)`, then
`other.m_ = other.n_ = 0; other.data_ = nullptr;`.  The result is the new object
together with `other` as the call leaves it. -/
def ctor_move (other : vector T w) : vector T w × vector T w :=
  ({ n_ := other.n_, m_ := other.m_, data_ := other.data_ }, { n_ := 0, m_ := 0, data_ := none })

/-- Copy assignment `operator=(const vector &o)` on two distinct objects:
`if (m_ < o.m_) data_ = (T *)realloc(data_, sizeof(T) * o.m_); n_ = o.n_; m_ = o.m_;
 std::copy(begin(), end(), (T *)o.begin());`.  The result of `realloc` is not tested.
The copy reads `n_` elements of this object and writes them into the block of `o`.
The result is this object together with `o` as the call leaves it. -/
def assign_copy (ok : Bool) (v o : vector T w) :
    Except (Fault T w) (vector T w × vector T w) := do
  let d : Option (Block T) :=
    if v.m_ < o.m_ then (if ok then some (realloc v.data_ o.m_) else none) else v.data_
  let v1 : vector T w := { n_ := o.n_, m_ := o.m_, data_ := d }
  let od ← copy_range v1.data_ v1.n_ 0 o.data_
  pure (v1, { o with data_ := od })

/-- Move assignment `operator=(vector &&o)` on two distinct objects:
`n_ = o.n_; m_ = o.m_; data_ = o.data_; std::memset(&o, 0, sizeof(o));`.  The zero bytes
in `o` read as counters 0 and the null pointer.  The result is this object together with
`o` as the call leaves it. -/
def assign_move (_v o : vector T w) : vector T w × vector T w :=
  ({ n_ := o.n_, m_ := o.m_, data_ := o.data_ }, { n_ := 0, m_ := 0, data_ := none })

/-- Method `zero()`: `std::memset(data_, 0, sizeof(T) * n_);`.  `z` is the value of `T`
whose bytes are all zero (0 for the integer types).  The bytes of the first `n_` slots
are set slot by slot; a call with `n_ = 0` writes nothing, otherwise a write through the
null pointer or past the block is undefined. -/
def zero (z : T) (v : vector T w) : Except (Fault T w) (vector T w) := do
  let d ← construct_range z v.n_ 0 v.data_
  pure { v with data_ := d }

/-- Write through the reference `operator[](idx)` returns: `v[idx] = x;`. -/
def assign_index (v : vector T w) (i : Nat) (x : T) : Except (Fault T w) (vector T w) := do
  let b ← construct_at v.data_ i x
  pure { v with data_ := some b }

/-- Object a call leaves behind: the result of a normal return, the object recorded by a
thrown exception, nothing after undefined behaviour. -/
def left_by : Except (Fault T w) (vector T w) → Option (vector T w)
  | .ok v => some v
  | .error (Fault.bad_alloc s) => some s
  | .error (Fault.runtime_error s) => some s
  | .error Fault.undefined => none

/-- Size below the maximum `2 ^ w - 1` of the counter type. -/
def below_max (v : vector T w) : Prop := v.n_ + 1 < 2 ^ w

/-- Objects reachable from the constructors by the public operations of one build
(`ndebug`), with any allocator outcomes and arguments, every object on the way having its
size below the maximum of the counter type.  Operations on two objects have one rule for
each object they leave. -/
inductive Reach (ndebug : Bool) : vector T w → Prop
  | ctor (ok : Bool) (n : Nat) (init : Bool) (x : T) (v : vector T w) :
      left_by (ctor ok n init x) = some v → below_max v → Reach ndebug v
  | ctor_list (ok : Bool) (il : List T) (v : vector T w) :
      left_by (ctor_list ok il) = some v → below_max v → Reach ndebug v
  | ctor_args (Args : Type) (sz : Nat) (ok : Bool) (n : Nat) (init : Bool)
      (make : Args → T × Args) (a : Args) (v : vector T w) :
      left_by (ctor_args sz ok n init make a) = some v → below_max v → Reach ndebug v
  | ctor_copy (trivial ok : Bool) (u v : vector T w) : Reach ndebug u →
      left_by (ctor_copy trivial ok u) = some v → below_max v → Reach ndebug v
  | ctor_move_new (u : vector T w) : Reach ndebug u → Reach ndebug (ctor_move u).1
  | ctor_move_old (u : vector T w) : Reach ndebug u → Reach ndebug (ctor_move u).2
  | emplace_back (ok : Bool) (u v : vector T w) (x : T) : Reach ndebug u →
      left_by (Prod.fst <$> emplace_back ndebug ok u x) = some v → below_max v →
      Reach ndebug v
  | push_back (ok : Bool) (u v : vector T w) (x : T) : Reach ndebug u →
      left_by (Prod.fst <$> push_back ok u x) = some v → below_max v → Reach ndebug v
  | reserve (ok : Bool) (u v : vector T w) (k : Nat) : Reach ndebug u →
      left_by (reserve ok u k) = some v → Reach ndebug v
  | resize (ok : Bool) (u v : vector T w) (k : Nat) (init : Bool) (x : T) : Reach ndebug u →
      left_by (resize ok u k init x) = some v → below_max v → Reach ndebug v
  | shrink_to_fit (ok : Bool) (u v : vector T w) : Reach ndebug u →
      left_by (shrink_to_fit ok u) = some v → Reach ndebug v
  | zero (z : T) (u v : vector T w) : Reach ndebug u →
      left_by (zero z u) = some v → Reach ndebug v
  | assign_index (u v : vector T w) (i : Nat) (x : T) : Reach ndebug u →
      left_by (assign_index u i x) = some v → Reach ndebug v
  | assign_copy_this (ok : Bool) (u o v : vector T w) : Reach ndebug u → Reach ndebug o →
      left_by (Prod.fst <$> assign_copy ok u o) = some v → Reach ndebug v
  | assign_copy_other (ok : Bool) (u o v : vector T w) : Reach ndebug u → Reach ndebug o →
      left_by (Prod.snd <$> assign_copy ok u o) = some v → Reach ndebug v
  | assign_move_this (u o : vector T w) : Reach ndebug u → Reach ndebug o →
      Reach ndebug (assign_move u o).1
  | assign_move_other (u o : vector T w) : Reach ndebug u → Reach ndebug o →
      Reach ndebug (assign_move u o).2

/-- Successive calls `emplace_back(x)`, one for each value of a list in order, every
reallocation succeeding; the returned references are dropped. -/
def emplace_backs (ndebug : Bool) : vector T w → List T → Except (Fault T w) (vector T w)
  | v, [] => pure v
  | v, x :: xs => do
    let r ← emplace_back ndebug true v x
    emplace_backs ndebug r.1 xs

end vector

open vector

/-! ## Counter arithmetic, blocks and single accesses -/

/-- Below the counter maximum `x + 1` is exact at every width. -/
theorem succ_promoted_of_lt {w x : Nat} (h : x + 1 < 2 ^ w) : succ_promoted w x = x + 1 := by
  unfold succ_promoted
  split
  · rfl
  · exact Nat.mod_eq_of_lt h

/-- Storing a value that fits the counter type keeps it. -/
theorem wrap_of_lt {w x : Nat} (h : x < 2 ^ w) : wrap w x = x := Nat.mod_eq_of_lt h

/-- Growing a block to `k + 1` slots and constructing at slot `k` keeps the first `k`
slots and ends the block with the new element. -/
theorem realloc_succ_set (b : Block T) (x : T) :
    ∀ k, k ≤ b.length →
      (b.take (k + 1) ++ List.replicate (k + 1 - b.length) none).set k (some x)
        = b.take k ++ [some x] := by
  induction b with
  | nil =>
    intro k hk
    have : k = 0 := by simpa using hk
    subst this
    rfl
  | cons a t ih =>
    intro k hk
    cases k with
    | zero => simp
    | succ k =>
      have hk2 : k ≤ t.length := by simpa using hk
      have := ih k hk2
      simpa using this

/-- Reading a constructed slot yields its element. -/
theorem load_eq_ok {p : Option (Block T)} {i : Nat} {x : T} (h : slot p i = some x) :
    (load p i : Except (Fault T w) T) = .ok x := by
  simp [load, h, pure, Except.pure]

/-- Reading outside the block or an unconstructed slot is undefined. -/
theorem load_eq_error {p : Option (Block T)} {i : Nat} (h : slot p i = none) :
    (load p i : Except (Fault T w) T) = .error Fault.undefined := by
  simp [load, h, throw, throwThe, MonadExceptOf.throw]

/-- Construction inside the block sets the slot. -/
theorem construct_at_ok {b : Block T} {i : Nat} (x : T) (h : i < b.length) :
    (construct_at (some b) i x : Except (Fault T w) (Block T)) = .ok (b.set i (some x)) := by
  simp [construct_at, h, pure, Except.pure]

/-- After construction at slot `i` the slot holds the new element. -/
theorem slot_set_self {b : Block T} {i : Nat} (x : T) (h : i < b.length) :
    slot (some (b.set i (some x))) i = some x := by
  simp [slot, List.getD_eq_getElem?_getD, h]

/-- Construction at slot `i` leaves every other slot as it was. -/
theorem slot_set_ne {b : Block T} {i j : Nat} (x : T) (h : i ≠ j) :
    slot (some (b.set i (some x))) j = slot (some b) j := by
  simp [slot, List.getD_eq_getElem?_getD, List.getElem?_set_ne h]

/-- Constructor call `vector()` (count 0): no allocation, null buffer, both counters 0. -/
theorem ctor_zero (ok init : Bool) (x : T) :
    (ctor ok 0 init x : Except (Fault T w) (vector T w)) = .ok ⟨0, 0, none⟩ := by
  cases init <;> rfl

/-! ## Exact-fit insertion -/

/-- One `emplace_back` (non-checking build, allocation succeeding) on an object with
`m_ = n_` below the counter maximum whose block has at least `n_` slots: the block becomes
the first `n_` slots followed by the new element, both counters become `n_ + 1`, and the
reference returned is to index `n_`. -/
theorem emplace_back_exact (v : vector T w) (x : T) (h1 : v.m_ = v.n_)
    (h2 : v.n_ + 1 < 2 ^ w) (h3 : v.n_ ≤ (v.data_.getD []).length) :
    emplace_back true true v x
      = .ok (⟨v.n_ + 1, v.n_ + 1, some ((v.data_.getD []).take v.n_ ++ [some x])⟩, v.n_) := by
  have hg : grows v = true := by
    simp [grows, succ_promoted_of_lt h2, h1]
  simp only [emplace_back, hg, if_true, succ_promoted_of_lt h2, realloc, construct_back,
    construct_at, back, h1, wrap_of_lt h2]
  have hw : wrap w (v.n_ + 1) = v.n_ + 1 := wrap_of_lt h2
  have hlen : v.n_ < (v.n_ + 1) ⊓ List.length (v.data_.getD [])
      + (v.n_ + 1 - List.length (v.data_.getD [])) := by omega
  simp [realloc_succ_set _ x _ h3, bind, Except.bind, pure, Except.pure, h3, hw, hlen]

/-- A non-empty run of `emplace_back` calls from an object with `m_ = n_` that stays below
the counter maximum appends the values in order and keeps both counters equal. -/
theorem emplace_backs_exact : ∀ (xs : List T) (v : vector T w), xs ≠ [] → v.m_ = v.n_ →
    v.n_ + xs.length < 2 ^ w → v.n_ ≤ (v.data_.getD []).length →
    emplace_backs true v xs
      = .ok ⟨v.n_ + xs.length, v.n_ + xs.length,
          some ((v.data_.getD []).take v.n_ ++ xs.map some)⟩ := by
  intro xs
  induction xs with
  | nil => intro v h; exact absurd rfl h
  | cons x rest ih =>
    intro v _ h1 h2 h3
    have h2a : v.n_ + 1 < 2 ^ w := by simp at h2; omega
    rw [emplace_backs, emplace_back_exact v x h1 h2a h3]
    by_cases hr : rest = []
    · subst hr
      simp [emplace_backs, bind, Except.bind, pure, Except.pure]
    · have := ih ⟨v.n_ + 1, v.n_ + 1, some ((v.data_.getD []).take v.n_ ++ [some x])⟩ hr rfl
        (by simp at h2 ⊢; omega) (by simp; omega)
      have ht : List.take (v.n_ + 1) ((v.data_.getD []).take v.n_ ++ [some x])
          = (v.data_.getD []).take v.n_ ++ [some x] :=
        List.take_of_length_le (by simp)
      simp only [bind, Except.bind, this]
      simp [ht, Nat.add_assoc, Nat.add_comm 1]

/-- Runs of `emplace_back` from counters 0, 0 and any buffer, shorter than `2 ^ w`. -/
theorem emplace_backs_from_empty (p : Option (Block T)) (xs : List T) (h : xs.length < 2 ^ w) :
    ∃ v : vector T w, emplace_backs true ⟨0, 0, p⟩ xs = .ok v
      ∧ v.capacity = v.size ∧ v.size = xs.length ∧ ∀ i, i < xs.length → v.elem i = xs[i]? := by
  by_cases hx : xs = []
  · subst hx
    exact ⟨⟨0, 0, p⟩, rfl, rfl, rfl, by simp⟩
  · refine ⟨_, emplace_backs_exact xs ⟨0, 0, p⟩ hx rfl (by simpa using h) (Nat.zero_le _), ?_, ?_, ?_⟩
    · rfl
    · simp [size]
    · intro i hi
      simp [elem, slot, List.getD_eq_getElem?_getD, hi]

/-- With both counters at the maximum of a counter type at least as wide as `int` and a
block of that many slots, `n_ + 1` wraps to 0, the guard is false and the construction
at index `n_` lies outside the block. -/
theorem emplace_back_at_max (hw : 32 ≤ w) (ndebug ok : Bool) (N : Nat) (b : Block T) (x : T)
    (hN : N + 1 = 2 ^ w) (hb : b.length = N) :
    grows (⟨N, N, some b⟩ : vector T w) = false
      ∧ emplace_back ndebug ok (⟨N, N, some b⟩ : vector T w) x = .error Fault.undefined := by
  have hs : succ_promoted w N = 0 := by
    have : ¬ w < 32 := by omega
    simp [succ_promoted, this, hN]
  have hg : grows (⟨N, N, some b⟩ : vector T w) = false := by
    simp [grows, hs]
  refine ⟨hg, ?_⟩
  simp [emplace_back, hg, construct_back, construct_at, hb, bind, Except.bind, throw, throwThe,
    MonadExceptOf.throw, pure, Except.pure]

/-- After `2 ^ w - 1` calls of `emplace_back` on a default-constructed array, `w ≥ 32`,
both counters are at the maximum and one more call is undefined. -/
theorem emplace_backs_fill (hw : 32 ≤ w) (init : Bool) (x0 x : T) (xs : List T)
    (h : xs.length + 1 = 2 ^ w) :
    ∃ v, (do let v0 ← ctor true 0 init x0
             emplace_backs true v0 xs : Except (Fault T w) (vector T w)) = .ok v
      ∧ v.size = xs.length ∧ v.capacity = xs.length ∧ grows v = false
      ∧ emplace_back true true v x = .error Fault.undefined := by
  have h2 : 2 ≤ 2 ^ w := by
    calc 2 = 2 ^ 1 := rfl
      _ ≤ 2 ^ w := Nat.pow_le_pow_right (by decide) (by omega)
  have hne : xs ≠ [] := by
    intro h0
    subst h0
    simp at h
    omega
  have hrun := emplace_backs_exact xs (⟨0, 0, none⟩ : vector T w) hne rfl
    (by simp only [Nat.zero_add]; omega) (Nat.zero_le _)
  have hst : (⟨0 + xs.length, 0 + xs.length,
      some (List.take 0 ((none : Option (Block T)).getD []) ++ xs.map some)⟩ : vector T w)
      = ⟨xs.length, xs.length, some (xs.map some)⟩ := by simp
  simp only [hst] at hrun
  have hmax := emplace_back_at_max hw true true xs.length (xs.map some) x h (by simp)
  refine ⟨⟨xs.length, xs.length, some (xs.map some)⟩, ?_, rfl, rfl, hmax.1, hmax.2⟩
  rw [ctor_zero]
  exact hrun

/-! ## Equality and copying loops -/

/-- The element loop of `operator==` returns `true` exactly when every pair of slots it
visits is readable and not unequal. -/
theorem eq_loop_true_iff (ne : T → T → Bool) (a b : Option (Block T)) :
    ∀ k i, (eq_loop ne a b k i : Except (Fault T w) Bool) = .ok true ↔
      ∀ j, i ≤ j → j < i + k →
        ∃ x y, slot a j = some x ∧ slot b j = some y ∧ ne x y = false := by
  intro k
  induction k with
  | zero =>
    intro i
    constructor
    · intro _ j h1 h2
      omega
    · intro _
      rfl
  | succ k ih =>
    intro i
    rw [eq_loop]
    cases ha : slot a i with
    | none =>
      rw [load_eq_error ha]
      constructor
      · intro h
        cases h
      · intro h
        obtain ⟨x, y, hx, _, _⟩ := h i (le_refl i) (by omega)
        rw [ha] at hx
        cases hx
    | some x =>
      rw [load_eq_ok ha]
      cases hb : slot b i with
      | none =>
        rw [load_eq_error hb]
        constructor
        · intro h
          cases h
        · intro h
          obtain ⟨x, y, _, hy, _⟩ := h i (le_refl i) (by omega)
          rw [hb] at hy
          cases hy
      | some y =>
        rw [load_eq_ok hb]
        cases hne : ne x y with
        | true =>
          simp only [bind, Except.bind, hne, if_true, pure, Except.pure]
          constructor
          · intro h
            cases h
          · intro h
            obtain ⟨x2, y2, hx, hy, hxy⟩ := h i (le_refl i) (by omega)
            rw [ha] at hx
            rw [hb] at hy
            cases hx
            cases hy
            rw [hne] at hxy
            cases hxy
        | false =>
          simp only [bind, Except.bind, hne, Bool.false_eq_true, if_false]
          rw [ih (i + 1)]
          constructor
          · intro h j h1 h2
            by_cases hj : j = i
            · subst hj
              exact ⟨x, y, ha, hb, hne⟩
            · exact h j (by omega) (by omega)
          · intro h j h1 h2
            exact h j (by omega) (by omega)

/-- On readable slots the element loop of `operator==` returns a truth value. -/
theorem eq_loop_total (ne : T → T → Bool) (a b : Option (Block T)) :
    ∀ k i, (∀ j, i ≤ j → j < i + k → (slot a j).isSome = true ∧ (slot b j).isSome = true) →
      ∃ r, (eq_loop ne a b k i : Except (Fault T w) Bool) = .ok r := by
  intro k
  induction k with
  | zero =>
    intro i _
    exact ⟨true, rfl⟩
  | succ k ih =>
    intro i h
    obtain ⟨h1, h2⟩ := h i (le_refl i) (by omega)
    obtain ⟨x, hx⟩ := Option.isSome_iff_exists.mp h1
    obtain ⟨y, hy⟩ := Option.isSome_iff_exists.mp h2
    rw [eq_loop, load_eq_ok hx, load_eq_ok hy]
    cases hne : ne x y with
    | true => exact ⟨false, by simp [bind, Except.bind, hne, pure, Except.pure]⟩
    | false =>
      obtain ⟨r, hr⟩ := ih (i + 1) (fun j h3 h4 => h j (by omega) (by omega))
      exact ⟨r, by simp [bind, Except.bind, hne, hr]⟩

/-- Characterisation of `a == b` being `true`. -/
theorem eq_true_iff {w2 : Nat} (ne : T → T → Bool) (a : vector T w) (b : vector T w2) :
    a.eq ne b = .ok true ↔ a.size = b.size ∧ ∀ i, i < a.size →
      ∃ x y, a.elem i = some x ∧ b.elem i = some y ∧ ne x y = false := by
  unfold eq
  by_cases hs : a.size = b.size
  · rw [if_neg (not_not.mpr hs), eq_loop_true_iff]
    constructor
    · intro h
      refine ⟨hs, fun i hi => h i (Nat.zero_le _) ?_⟩
      simpa [size] using hi
    · intro h j _ hj
      refine h.2 j ?_
      simpa [size] using hj
  · simp [hs, pure, Except.pure]

/-- On live arrays `operator==` returns a truth value. -/
theorem eq_total {w2 : Nat} (ne : T → T → Bool) (a : vector T w) (b : vector T w2)
    (ha : a.live) (hb : b.live) : ∃ r, a.eq ne b = .ok r := by
  unfold eq
  by_cases hs : a.size = b.size
  · rw [if_neg (not_not.mpr hs)]
    refine eq_loop_total ne _ _ _ _ (fun j _ hj => ⟨ha j ?_, hb j ?_⟩)
    · simpa using hj
    · have : a.n_ = b.n_ := hs
      rw [← this]
      simpa using hj
  · exact ⟨false, by simp [hs, pure, Except.pure]⟩

/-- The copy loop into a block that is long enough, from readable source slots: it ends
normally, keeps the block length, makes the visited slots equal to the source slots and
leaves the slots below the start untouched. -/
theorem copy_range_spec (src : Option (Block T)) :
    ∀ k i (d : Block T), i + k ≤ d.length →
      (∀ j, i ≤ j → j < i + k → (slot src j).isSome = true) →
      ∃ d2 : Block T,
        (copy_range src k i (some d) : Except (Fault T w) (Option (Block T))) = .ok (some d2)
        ∧ d2.length = d.length
        ∧ (∀ j, i ≤ j → j < i + k → slot (some d2) j = slot src j)
        ∧ (∀ j, j < i → slot (some d2) j = slot (some d) j) := by
  intro k
  induction k with
  | zero =>
    intro i d _ _
    exact ⟨d, rfl, rfl, fun j h1 h2 => by omega, fun j _ => rfl⟩
  | succ k ih =>
    intro i d hlen hsrc
    obtain ⟨x, hx⟩ := Option.isSome_iff_exists.mp (hsrc i (le_refl i) (by omega))
    have hi : i < d.length := by omega
    obtain ⟨d2, hrun, hl, hcopied, hkept⟩ := ih (i + 1) (d.set i (some x))
      (by rw [List.length_set]; omega) (fun j h1 h2 => hsrc j (by omega) (by omega))
    refine ⟨d2, ?_, ?_, ?_, ?_⟩
    · rw [copy_range, load_eq_ok hx]
      simp only [bind, Except.bind, construct_at_ok x hi]
      exact hrun
    · rw [hl, List.length_set]
    · intro j h1 h2
      by_cases hj : j = i
      · subst hj
        rw [hkept j (by omega), slot_set_self x hi, hx]
      · exact hcopied j (by omega) (by omega)
    · intro j hj
      rw [hkept j (by omega), slot_set_ne x (by omega)]

/-! ## Construction loop, reallocation and copying into a buffer -/

/-- The construction loop inside a block that is long enough: it ends normally, keeps the
block length, fills the visited slots with the value and leaves the slots below the start
untouched. -/
theorem construct_range_spec (x : T) :
    ∀ k i (d : Block T), i + k ≤ d.length →
      ∃ d2 : Block T,
        (construct_range x k i (some d) : Except (Fault T w) (Option (Block T))) = .ok (some d2)
        ∧ d2.length = d.length
        ∧ (∀ j, i ≤ j → j < i + k → slot (some d2) j = some x)
        ∧ (∀ j, j < i → slot (some d2) j = slot (some d) j) := by
  intro k
  induction k with
  | zero =>
    intro i d _
    exact ⟨d, rfl, rfl, fun j h1 h2 => by omega, fun j _ => rfl⟩
  | succ k ih =>
    intro i d hlen
    have hi : i < d.length := by omega
    obtain ⟨d2, hrun, hl, hset, hkept⟩ := ih (i + 1) (d.set i (some x))
      (by rw [List.length_set]; omega)
    refine ⟨d2, ?_, ?_, ?_, ?_⟩
    · rw [construct_range]
      simp only [bind, Except.bind, construct_at_ok x hi]
      exact hrun
    · rw [hl, List.length_set]
    · intro j h1 h2
      by_cases hj : j = i
      · subst hj
        rw [hkept j (by omega), slot_set_self x hi]
      · exact hset j (by omega) (by omega)
    · intro j hj
      rw [hkept j (by omega), slot_set_ne x (by omega)]

/-- A successful reallocation to `k` slots keeps what every slot below `k` held. -/
theorem slot_realloc (p : Option (Block T)) (k i : Nat) (h : i < k) :
    slot (some (realloc p k)) i = slot p i := by
  cases p with
  | none =>
    simp [slot, realloc, List.getD_eq_getElem?_getD]
  | some b =>
    simp only [slot, realloc, Option.getD_some, List.getD_eq_getElem?_getD]
    by_cases hi : i < b.length
    · rw [List.getElem?_append_left (by simp; omega), List.getElem?_take_of_lt h]
    · rw [List.getElem?_append_right (by simp; omega)]
      have : b[i]? = none := List.getElem?_eq_none (by omega)
      rw [this]
      rw [List.getElem?_replicate]
      split <;> rfl

/-- The copy loop from index 0 into any buffer with at least `k` slots, from readable
source slots: it ends normally and the first `k` slots of the result are those of the source. -/
theorem copy_range_into (src dst : Option (Block T)) (k : Nat)
    (hlen : k ≤ (dst.getD []).length)
    (hsrc : ∀ j, j < k → (slot src j).isSome = true) :
    ∃ d2 : Option (Block T),
      (copy_range src k 0 dst : Except (Fault T w) (Option (Block T))) = .ok d2
      ∧ ∀ j, j < k → slot d2 j = slot src j := by
  cases dst with
  | none =>
    have hk : k = 0 := by simpa using hlen
    subst hk
    exact ⟨none, rfl, fun j hj => by omega⟩
  | some d =>
    obtain ⟨d2, hrun, _, hcopied, _⟩ := @copy_range_spec T w src k 0 d
      (by simpa using hlen) (fun j _ hj => hsrc j (by simpa using hj))
    exact ⟨some d2, hrun, fun j hj => hcopied j (Nat.zero_le _) (by simpa using hj)⟩

/-- Live elements lie inside the block. -/
theorem live_le_length {v : vector T w} (h : v.live) : v.n_ ≤ (v.data_.getD []).length := by
  by_contra hc
  have hlt : (v.data_.getD []).length < v.n_ := by omega
  have := h _ hlt
  cases hd : v.data_ with
  | none => simp [elem, slot, hd] at this
  | some b => simp [elem, slot, hd, List.getD_eq_getElem?_getD] at this

/-- With a pack that the construction leaves unchanged the forwarding loop is the loop
that constructs every slot from one value. -/
theorem forward_range_keep (make : Args → T × Args) (a : Args) (x : T)
    (h : make a = (x, a)) :
    ∀ k i (p : Option (Block T)),
      (forward_range make k i p a : Except (Fault T w) (Option (Block T)))
        = construct_range x k i p := by
  intro k
  induction k with
  | zero => intro i p; rfl
  | succ k ih =>
    intro i p
    rw [forward_range, construct_range, h]
    cases hc : (construct_at p i x : Except (Fault T w) (Block T)) with
    | error e => rfl
    | ok b =>
      simp only [bind, Except.bind]
      exact ih _ _

/-- The general form of the sized constructor agrees with `ctor` when the byte count fits
`size_t` and the construction leaves the pack unchanged. -/
theorem ctor_args_eq_ctor (sz : Nat) (ok : Bool) (n : Nat) (init : Bool)
    (make : Args → T × Args) (a : Args) (x : T)
    (hsz : 0 < sz) (hfit : sz * n < 2 ^ 64) (hkeep : make a = (x, a)) :
    (ctor_args sz ok n init make a : Except (Fault T w) (vector T w)) = ctor ok n init x := by
  unfold ctor_args ctor
  rw [Nat.mod_eq_of_lt hfit, Nat.mul_div_cancel_left n hsz]
  cases init with
  | false => rfl
  | true =>
    simp only [if_true]
    rw [forward_range_keep make a x hkeep]

/-- The sized constructor with `init == true`, an unchanged pack and a fitting byte count:
size and capacity `n`, every element the constructed value, null buffer for `n == 0`. -/
theorem ctor_init_fills (n : Nat) (x : T) :
    ∃ v : vector T w, ctor true n true x = .ok v ∧ v.size = n ∧ v.capacity = n
      ∧ (∀ i, i < n → v.elem i = some x)
      ∧ (n = 0 → v.data_ = none) := by
  by_cases hn : n = 0
  · subst hn
    exact ⟨⟨0, 0, none⟩, ctor_zero true true x, rfl, rfl, fun i hi => by omega, fun _ => rfl⟩
  · obtain ⟨d2, hrun, _, hset, _⟩ := @construct_range_spec T w x n 0 (malloc T n)
      (by simp [malloc])
    refine ⟨⟨n, n, some d2⟩, ?_, rfl, rfl, ?_, fun h => absurd h hn⟩
    · simp only [ctor, hn, ne_eq, not_false_eq_true, if_true, hrun, bind, Except.bind, pure,
        Except.pure]
    · intro i hi
      exact hset i (Nat.zero_le _) (by simpa using hi)

/-- For trivially copyable `T` an assignment takes effect like a construction. -/
theorem assign_at_trivial (p : Option (Block T)) (i : Nat) (x : T) :
    (assign_at true p i x : Except (Fault T w) (Block T)) = construct_at p i x := by
  unfold assign_at construct_at
  cases p with
  | none => rfl
  | some b => simp

/-- For trivially copyable `T` the assignment loop is the copy loop. -/
theorem assign_range_trivial (src : Option (Block T)) :
    ∀ k i (dst : Option (Block T)),
      (assign_range true src k i dst : Except (Fault T w) (Option (Block T)))
        = copy_range src k i dst := by
  intro k
  induction k with
  | zero => intro i dst; rfl
  | succ k ih =>
    intro i dst
    rw [assign_range, copy_range]
    simp only [assign_at_trivial, ih]

/-- For trivially copyable `T` and a source with live elements the copy constructor
(allocation succeeding) yields an array of the size of the source, with capacity equal
to that size, equal elements and so equal to the source under `operator==`. -/
theorem ctor_copy_trivially_copyable (ne : T → T → Bool) (A : vector T w) (hA : A.live) :
    ∃ B, ctor_copy true true A = .ok B ∧ B.size = A.size ∧ B.capacity = A.size
      ∧ (∀ i, i < A.size → B.elem i = A.elem i)
      ∧ B.live
      ∧ ((∀ x, ne x x = false) → B.eq ne A = .ok true) := by
  obtain ⟨d2, hrun, _, hcopied, _⟩ := @copy_range_spec T w A.data_ A.n_ 0 (malloc T A.n_)
    (by simp [malloc]) (fun j _ hj => hA j (by simpa using hj))
  have helem : ∀ i, i < A.n_ → slot (some d2) i = slot A.data_ i :=
    fun i hi => hcopied i (Nat.zero_le _) (by simpa using hi)
  refine ⟨⟨A.n_, A.n_, some d2⟩, ?_, rfl, rfl, helem, ?_, ?_⟩
  · simp only [ctor_copy, assign_range_trivial, if_true, hrun, bind, Except.bind, pure,
      Except.pure]
  · intro i hi
    have := hA i hi
    simpa [elem, helem i hi] using this
  · intro hr
    rw [eq_true_iff]
    refine ⟨rfl, fun i hi => ?_⟩
    obtain ⟨x, hx⟩ := Option.isSome_iff_exists.mp (hA i hi)
    exact ⟨x, x, (helem i hi).trans hx, hx, hr x⟩

/-! ## Abnormal ends and the counters an operation leaves -/

/-- A placement construction ends abnormally only in undefined behaviour. -/
theorem construct_at_error {p : Option (Block T)} {i : Nat} {x : T} {e : Fault T w}
    (h : (construct_at p i x : Except (Fault T w) (Block T)) = .error e) :
    e = Fault.undefined := by
  unfold construct_at at h
  split at h
  · cases h; rfl
  · split at h
    · cases h
    · cases h; rfl

/-- A read ends abnormally only in undefined behaviour. -/
theorem load_error {p : Option (Block T)} {i : Nat} {e : Fault T w}
    (h : (load p i : Except (Fault T w) T) = .error e) : e = Fault.undefined := by
  unfold load at h
  split at h
  · cases h
  · cases h; rfl

/-- Method `back()` ends abnormally only in undefined behaviour. -/
theorem back_error {v : vector T w} {e : Fault T w} (h : back v = .error e) :
    e = Fault.undefined := by
  unfold back at h
  cases hd : v.data_ with
  | none =>
    simp only [hd] at h
    cases h
    rfl
  | some b =>
    simp only [hd] at h
    split_ifs at h
    all_goals first
      | (cases h; rfl)
      | cases h

/-- The construction loop ends abnormally only in undefined behaviour. -/
theorem construct_range_error (x : T) :
    ∀ k i (p : Option (Block T)) (e : Fault T w),
      (construct_range x k i p : Except (Fault T w) (Option (Block T))) = .error e →
      e = Fault.undefined := by
  intro k
  induction k with
  | zero => intro i p e h; cases h
  | succ k ih =>
    intro i p e h
    rw [construct_range] at h
    cases hc : (construct_at p i x : Except (Fault T w) (Block T)) with
    | error e2 =>
      rw [hc] at h
      cases h
      exact construct_at_error hc
    | ok b =>
      rw [hc] at h
      exact ih _ _ _ h

/-- The copy loop ends abnormally only in undefined behaviour. -/
theorem copy_range_error (src : Option (Block T)) :
    ∀ k i (p : Option (Block T)) (e : Fault T w),
      (copy_range src k i p : Except (Fault T w) (Option (Block T))) = .error e →
      e = Fault.undefined := by
  intro k
  induction k with
  | zero => intro i p e h; cases h
  | succ k ih =>
    intro i p e h
    rw [copy_range] at h
    cases hl : (load src i : Except (Fault T w) T) with
    | error e2 =>
      rw [hl] at h
      cases h
      exact load_error hl
    | ok y =>
      rw [hl] at h
      cases hc : (construct_at p i y : Except (Fault T w) (Block T)) with
      | error e2 =>
        simp only [bind, Except.bind, hc] at h
        cases h
        exact construct_at_error hc
      | ok b =>
        simp only [bind, Except.bind, hc] at h
        exact ih _ _ _ h

/-- The shared tail of the insertions is undefined or returns with `n_` incremented in the
counter type and `m_` untouched. -/
theorem construct_back_cases (v : vector T w) (x : T) :
    construct_back v x = .error Fault.undefined
      ∨ ∃ v2 i, construct_back v x = .ok (v2, i) ∧ v2.n_ = wrap w (v.n_ + 1) ∧ v2.m_ = v.m_ := by
  unfold construct_back
  cases hc : (construct_at v.data_ v.n_ x : Except (Fault T w) (Block T)) with
  | error e =>
    left
    rw [construct_at_error hc]
    rfl
  | ok b =>
    cases hb : back ({ v with data_ := some b, n_ := wrap w (v.n_ + 1) } : vector T w) with
    | error e =>
      left
      simp only [bind, Except.bind, hb]
      rw [back_error hb]
    | ok i =>
      right
      exact ⟨⟨wrap w (v.n_ + 1), v.m_, some b⟩, i,
        by simp only [bind, Except.bind, hb, pure, Except.pure], rfl, rfl⟩

/-- Counters an object has after the shared tail of the insertions. -/
theorem left_construct_back {u v : vector T w} {x : T}
    (h : left_by (Prod.fst <$> construct_back u x) = some v) :
    v.n_ = wrap w (u.n_ + 1) ∧ v.m_ = u.m_ := by
  rcases construct_back_cases u x with hc | ⟨v2, i, hc, hn, hm⟩
  · rw [hc] at h
    cases h
  · rw [hc] at h
    cases h
    exact ⟨hn, hm⟩

/-- Method `reserve` leaves both counters as they were, whether it returns or throws. -/
theorem left_reserve {ok : Bool} {u v : vector T w} {k : Nat}
    (h : left_by (reserve ok u k) = some v) : v.n_ = u.n_ ∧ v.m_ = u.m_ := by
  unfold reserve at h
  split_ifs at h
  all_goals first
    | (cases h; exact ⟨rfl, rfl⟩)

/-- Counters `emplace_back` can leave: untouched by a throw, else `n_` incremented and `m_`
untouched or incremented. -/
theorem left_emplace_back {ndebug ok : Bool} {u v : vector T w} {x : T}
    (h : left_by (Prod.fst <$> emplace_back ndebug ok u x) = some v) :
    (v.n_ = u.n_ ∧ v.m_ = u.m_)
      ∨ (v.n_ = wrap w (u.n_ + 1) ∧ (v.m_ = u.m_ ∨ v.m_ = wrap w (u.m_ + 1))) := by
  unfold emplace_back at h
  by_cases hg : grows u = true
  · cases ndebug with
    | true =>
      simp only [hg, if_true] at h
      obtain ⟨hn, hm⟩ := left_construct_back h
      exact Or.inr ⟨hn, Or.inr hm⟩
    | false =>
      simp only [hg, if_true, Bool.false_eq_true, if_false] at h
      by_cases hc : succ_promoted w u.m_ < u.m_
      · simp only [hc, if_true] at h
        have h2 : some ({ u with data_ :=
            if ok = true then some (realloc u.data_ (succ_promoted w u.n_)) else none } :
              vector T w) = some v := h
        cases h2
        exact Or.inl ⟨rfl, rfl⟩
      · simp only [hc, if_false] at h
        obtain ⟨hn, hm⟩ := left_construct_back h
        exact Or.inr ⟨hn, Or.inl hm⟩
  · simp only [hg, if_false] at h
    obtain ⟨hn, hm⟩ := left_construct_back h
    exact Or.inr ⟨hn, Or.inl hm⟩

/-- Counters `push_back` can leave: untouched by a throw, else `n_` incremented, `m_`
untouched. -/
theorem left_push_back {ok : Bool} {u v : vector T w} {x : T}
    (h : left_by (Prod.fst <$> push_back ok u x) = some v) :
    (v.n_ = u.n_ ∧ v.m_ = u.m_) ∨ (v.n_ = wrap w (u.n_ + 1) ∧ v.m_ = u.m_) := by
  unfold push_back at h
  by_cases hg : grows u = true
  · simp only [hg, if_true] at h
    cases hs : scaled w u.m_ with
    | none =>
      simp only [hs] at h
      cases h
    | some t =>
      simp only [hs] at h
      cases hr : reserve ok u (max t (succ_promoted w u.m_)) with
      | error e =>
        have h2 : left_by (reserve ok u (max t (succ_promoted w u.m_))) = some v := by
          rw [hr] at h ⊢
          exact h
        exact Or.inl (left_reserve h2)
      | ok v1 =>
        have h1 := @left_reserve T w ok u v1 _ (by rw [hr]; rfl)
        rw [hr] at h
        obtain ⟨hn, hm⟩ := left_construct_back h
        exact Or.inr ⟨by rw [hn, h1.1], by rw [hm, h1.2]⟩
  · simp only [hg, if_false] at h
    exact Or.inr (left_construct_back h)

/-- The sized constructor leaves equal counters. -/
theorem left_ctor {ok init : Bool} {n : Nat} {x : T} {v : vector T w}
    (h : left_by (ctor ok n init x) = some v) : v.m_ = v.n_ := by
  unfold ctor at h
  cases init with
  | false =>
    simp only [Bool.false_eq_true, if_false] at h
    cases h
    rfl
  | true =>
    simp only [if_true] at h
    cases hc : (construct_range x n 0
        (if n ≠ 0 then (if ok = true then some (malloc T n) else none) else none) :
        Except (Fault T w) (Option (Block T))) with
    | error e =>
      rw [hc, construct_range_error _ _ _ _ _ hc] at h
      cases h
    | ok d =>
      rw [hc] at h
      cases h
      rfl

/-- The list constructor leaves equal counters. -/
theorem left_ctor_list {ok : Bool} {il : List T} {v : vector T w}
    (h : left_by (ctor_list ok il) = some v) : v.m_ = v.n_ := by
  unfold ctor_list at h
  cases hc : (copy_range (some (il.map some)) il.length 0
      (if wrap w il.length ≠ 0 then (if ok = true then some (malloc T (wrap w il.length))
        else none) else none) : Except (Fault T w) (Option (Block T))) with
  | error e =>
    simp only [hc] at h
    rw [copy_range_error _ _ _ _ _ hc] at h
    cases h
  | ok d =>
    simp only [hc] at h
    cases h
    rfl

/-- An assignment ends abnormally only in undefined behaviour. -/
theorem assign_at_error {trivial : Bool} {p : Option (Block T)} {i : Nat} {x : T}
    {e : Fault T w}
    (h : (assign_at trivial p i x : Except (Fault T w) (Block T)) = .error e) :
    e = Fault.undefined := by
  unfold assign_at at h
  cases hp : p with
  | none =>
    simp only [hp] at h
    cases h
    rfl
  | some b =>
    simp only [hp] at h
    split_ifs at h
    all_goals first
      | (cases h; rfl)
      | cases h

/-- The assignment loop ends abnormally only in undefined behaviour. -/
theorem assign_range_error (trivial : Bool) (src : Option (Block T)) :
    ∀ k i (p : Option (Block T)) (e : Fault T w),
      (assign_range trivial src k i p : Except (Fault T w) (Option (Block T))) = .error e →
      e = Fault.undefined := by
  intro k
  induction k with
  | zero => intro i p e h; cases h
  | succ k ih =>
    intro i p e h
    rw [assign_range] at h
    cases hl : (load src i : Except (Fault T w) T) with
    | error e2 =>
      rw [hl] at h
      cases h
      exact load_error hl
    | ok y =>
      rw [hl] at h
      cases hc : (assign_at trivial p i y : Except (Fault T w) (Block T)) with
      | error e2 =>
        simp only [bind, Except.bind, hc] at h
        cases h
        exact assign_at_error hc
      | ok b =>
        simp only [bind, Except.bind, hc] at h
        exact ih _ _ _ h

/-- The construction loop with a forwarded pack ends abnormally only in undefined
behaviour. -/
theorem forward_range_error (make : Args → T × Args) :
    ∀ k i (p : Option (Block T)) (a : Args) (e : Fault T w),
      (forward_range make k i p a : Except (Fault T w) (Option (Block T))) = .error e →
      e = Fault.undefined := by
  intro k
  induction k with
  | zero => intro i p a e h; cases h
  | succ k ih =>
    intro i p a e h
    rw [forward_range] at h
    cases hc : (construct_at p i (make a).1 : Except (Fault T w) (Block T)) with
    | error e2 =>
      rw [hc] at h
      cases h
      exact construct_at_error hc
    | ok b =>
      rw [hc] at h
      exact ih _ _ _ _ h

/-- The sized constructor in its general form leaves equal counters. -/
theorem left_ctor_args {sz : Nat} {ok init : Bool} {n : Nat} {make : Args → T × Args}
    {a : Args} {v : vector T w}
    (h : left_by (ctor_args sz ok n init make a) = some v) : v.m_ = v.n_ := by
  unfold ctor_args at h
  cases init with
  | false =>
    simp only [Bool.false_eq_true, if_false] at h
    cases h
    rfl
  | true =>
    simp only [if_true] at h
    cases hc : (forward_range make n 0
        (if n ≠ 0 then (if ok = true then some (malloc T (sz * n % 2 ^ 64 / sz)) else none)
          else none) a : Except (Fault T w) (Option (Block T))) with
    | error e =>
      rw [hc, forward_range_error _ _ _ _ _ _ hc] at h
      cases h
    | ok d =>
      rw [hc] at h
      cases h
      rfl

/-- The copy constructor leaves equal counters, the size of the source. -/
theorem left_ctor_copy {trivial ok : Bool} {u v : vector T w}
    (h : left_by (ctor_copy trivial ok u) = some v) : v.m_ = v.n_ ∧ v.n_ = u.n_ := by
  unfold ctor_copy at h
  cases hc : (assign_range trivial u.data_ u.n_ 0
      (if ok = true then some (malloc T u.n_) else none) :
      Except (Fault T w) (Option (Block T))) with
  | error e =>
    simp only [hc] at h
    rw [assign_range_error _ _ _ _ _ _ hc] at h
    cases h
  | ok d =>
    simp only [hc] at h
    cases h
    exact ⟨rfl, rfl⟩

/-- Method `shrink_to_fit` keeps `n_` and leaves `m_` untouched or equal to `n_`. -/
theorem left_shrink_to_fit {ok : Bool} {u v : vector T w}
    (h : left_by (shrink_to_fit ok u) = some v) :
    v.n_ = u.n_ ∧ (v.m_ = u.m_ ∨ v.m_ = u.n_) := by
  unfold shrink_to_fit at h
  by_cases hm : u.m_ > u.n_
  · cases ok with
    | true =>
      simp only [hm, if_true] at h
      cases h
      exact ⟨rfl, Or.inr rfl⟩
    | false =>
      simp only [hm, if_true, Bool.false_eq_true, if_false] at h
      cases h
      exact ⟨rfl, Or.inl rfl⟩
  · simp only [hm, if_false] at h
    cases h
    exact ⟨rfl, Or.inl rfl⟩

/-- Method `zero` keeps both counters. -/
theorem left_zero {z : T} {u v : vector T w} (h : left_by (zero z u) = some v) :
    v.n_ = u.n_ ∧ v.m_ = u.m_ := by
  unfold zero at h
  cases hc : (construct_range z u.n_ 0 u.data_ : Except (Fault T w) (Option (Block T))) with
  | error e =>
    simp only [hc] at h
    rw [construct_range_error _ _ _ _ _ hc] at h
    cases h
  | ok d =>
    simp only [hc] at h
    cases h
    exact ⟨rfl, rfl⟩

/-- An indexed write keeps both counters. -/
theorem left_assign_index {u v : vector T w} {i : Nat} {x : T}
    (h : left_by (assign_index u i x) = some v) : v.n_ = u.n_ ∧ v.m_ = u.m_ := by
  unfold assign_index at h
  cases hc : (construct_at u.data_ i x : Except (Fault T w) (Block T)) with
  | error e =>
    simp only [hc] at h
    rw [construct_at_error hc] at h
    cases h
  | ok d =>
    simp only [hc] at h
    cases h
    exact ⟨rfl, rfl⟩

/-- Method `resize` keeps `m_` and leaves `n_` untouched or equal to `m_`. -/
theorem left_resize {ok init : Bool} {u v : vector T w} {k : Nat} {x : T}
    (h : left_by (resize ok u k init x) = some v) :
    (v.n_ = u.n_ ∧ v.m_ = u.m_) ∨ (v.n_ = u.m_ ∧ v.m_ = u.m_) := by
  unfold resize at h
  cases hr : reserve ok u k with
  | error e =>
    have h2 : left_by (reserve ok u k) = some v := by
      rw [hr] at h ⊢
      exact h
    exact Or.inl (left_reserve h2)
  | ok v1 =>
    have h1 := @left_reserve T w ok u v1 k (by rw [hr]; rfl)
    rw [hr] at h
    by_cases hc : (init = true ∧ v1.n_ < v1.m_)
    · simp only [bind, Except.bind, hc, and_self, if_true] at h
      cases hq : (construct_range x (v1.m_ - v1.n_) v1.n_ v1.data_ :
          Except (Fault T w) (Option (Block T))) with
      | error e =>
        simp only [hq] at h
        rw [construct_range_error _ _ _ _ _ hq] at h
        cases h
      | ok d =>
        simp only [hq] at h
        cases h
        exact Or.inr ⟨h1.2, h1.2⟩
    · simp only [bind, Except.bind, hc, if_false] at h
      cases h
      exact Or.inl h1

/-- Copy assignment leaves both objects with the counters of the source. -/
theorem left_assign_copy {ok : Bool} {u o : vector T w} {r : vector T w × vector T w}
    (h : assign_copy ok u o = .ok r) :
    r.1.n_ = o.n_ ∧ r.1.m_ = o.m_ ∧ r.2.n_ = o.n_ ∧ r.2.m_ = o.m_ := by
  unfold assign_copy at h
  cases hc : (copy_range
      (if u.m_ < o.m_ then (if ok = true then some (realloc u.data_ o.m_) else none)
        else u.data_) o.n_ 0 o.data_ : Except (Fault T w) (Option (Block T))) with
  | error e =>
    simp only [hc, bind, Except.bind] at h
    cases h
  | ok d =>
    simp only [hc, bind, Except.bind, pure, Except.pure] at h
    cases h
    exact ⟨rfl, rfl, rfl, rfl⟩

/-- Copy assignment ends abnormally only in undefined behaviour. -/
theorem assign_copy_error {ok : Bool} {u o : vector T w} {e : Fault T w}
    (h : assign_copy ok u o = .error e) : e = Fault.undefined := by
  unfold assign_copy at h
  cases hc : (copy_range
      (if u.m_ < o.m_ then (if ok = true then some (realloc u.data_ o.m_) else none)
        else u.data_) o.n_ 0 o.data_ : Except (Fault T w) (Option (Block T))) with
  | error e2 =>
    simp only [hc, bind, Except.bind] at h
    cases h
    exact copy_range_error _ _ _ _ _ hc
  | ok d =>
    simp only [hc, bind, Except.bind, pure, Except.pure] at h
    cases h

/-- Every reachable object records no more capacity than its size, and has its size below
the maximum of the counter type. -/
theorem reach_invariant {ndebug : Bool} {v : vector T w} (h : Reach ndebug v) :
    v.m_ ≤ v.n_ ∧ below_max v := by
  induction h with
  | ctor ok n init x v hl hb => exact ⟨le_of_eq (left_ctor hl), hb⟩
  | ctor_list ok il v hl hb => exact ⟨le_of_eq (left_ctor_list hl), hb⟩
  | ctor_args Args sz ok n init make a v hl hb => exact ⟨le_of_eq (left_ctor_args hl), hb⟩
  | ctor_copy trivial ok u v _ hl hb _ => exact ⟨le_of_eq (left_ctor_copy hl).1, hb⟩
  | ctor_move_new u _ ih => exact ih
  | ctor_move_old u _ ih =>
    refine ⟨Nat.le_refl 0, ?_⟩
    have := ih.2
    unfold below_max at this ⊢
    show 0 + 1 < 2 ^ w
    omega
  | emplace_back ok u v x _ hl hb ih =>
    refine ⟨?_, hb⟩
    have hu : u.n_ + 1 < 2 ^ w := ih.2
    rcases left_emplace_back hl with ⟨hn, hm⟩ | ⟨hn, hm | hm⟩
    · rw [hn, hm]; exact ih.1
    · rw [hn, hm, wrap_of_lt hu]; exact Nat.le_succ_of_le ih.1
    · rw [hn, hm, wrap_of_lt hu, wrap_of_lt (by have := ih.1; omega)]
      exact Nat.succ_le_succ ih.1
  | push_back ok u v x _ hl hb ih =>
    refine ⟨?_, hb⟩
    have hu : u.n_ + 1 < 2 ^ w := ih.2
    rcases left_push_back hl with ⟨hn, hm⟩ | ⟨hn, hm⟩
    · rw [hn, hm]; exact ih.1
    · rw [hn, hm, wrap_of_lt hu]; exact Nat.le_succ_of_le ih.1
  | reserve ok u v k _ hl ih =>
    obtain ⟨hn, hm⟩ := left_reserve hl
    unfold below_max
    rw [hn, hm]
    exact ih
  | resize ok u v k init x _ hl hb ih =>
    refine ⟨?_, hb⟩
    rcases left_resize hl with ⟨hn, hm⟩ | ⟨hn, hm⟩
    · rw [hn, hm]; exact ih.1
    · rw [hn, hm]
  | shrink_to_fit ok u v _ hl ih =>
    obtain ⟨hn, hm⟩ := left_shrink_to_fit hl
    unfold below_max
    rw [hn]
    refine ⟨?_, ih.2⟩
    rcases hm with hm | hm
    · rw [hm]; exact ih.1
    · rw [hm]
  | zero z u v _ hl ih =>
    obtain ⟨hn, hm⟩ := left_zero hl
    unfold below_max
    rw [hn, hm]
    exact ih
  | assign_index u v i x _ hl ih =>
    obtain ⟨hn, hm⟩ := left_assign_index hl
    unfold below_max
    rw [hn, hm]
    exact ih
  | assign_copy_this ok u o v _ _ hl _ iho =>
    cases hr : assign_copy ok u o with
    | error e =>
      rw [hr, assign_copy_error hr] at hl
      cases hl
    | ok r =>
      rw [hr] at hl
      cases hl
      obtain ⟨hn, hm, _, _⟩ := left_assign_copy hr
      unfold below_max
      rw [hn, hm]
      exact iho
  | assign_copy_other ok u o v _ _ hl _ iho =>
    cases hr : assign_copy ok u o with
    | error e =>
      rw [hr, assign_copy_error hr] at hl
      cases hl
    | ok r =>
      rw [hr] at hl
      cases hl
      obtain ⟨_, _, hn, hm⟩ := left_assign_copy hr
      unfold below_max
      rw [hn, hm]
      exact iho
  | assign_move_this u o _ _ _ iho => exact iho
  | assign_move_other u o _ _ _ iho =>
    refine ⟨Nat.le_refl 0, ?_⟩
    have := iho.2
    unfold below_max at this ⊢
    show 0 + 1 < 2 ^ w
    omega

/-- The shared tail of the insertions throws no `std::runtime_error`. -/
theorem construct_back_not_thrown (v : vector T w) (x : T) (s : vector T w) :
    construct_back v x ≠ .error (Fault.runtime_error s) := by
  intro h
  rcases construct_back_cases v x with hu | ⟨v2, i, hok, _, _⟩
  · have h2 := hu.symm.trans h
    cases h2
  · have h2 := hok.symm.trans h
    cases h2

/-- In the checking build `emplace_back` never throws the overflow error on an object whose
capacity counter holds a value of the counter type: when `m_ + 1 < m_` could be true
(`w ≥ 32`, `m_` at the maximum) the guard `n_ + 1 > m_` is false. -/
theorem emplace_back_check_dead (ok : Bool) (v : vector T w) (x : T) (s : vector T w)
    (hm : v.m_ < 2 ^ w) : emplace_back false ok v x ≠ .error (Fault.runtime_error s) := by
  intro h
  unfold emplace_back at h
  by_cases hg : grows v = true
  · simp only [hg, if_true, Bool.false_eq_true, if_false] at h
    by_cases hc : succ_promoted w v.m_ < v.m_
    · exfalso
      unfold succ_promoted at hc
      unfold grows succ_promoted at hg
      by_cases hw : w < 32
      · simp only [hw, if_true] at hc
        omega
      · simp only [hw, if_false] at hc hg
        have hlt : (v.n_ + 1) % 2 ^ w < 2 ^ w := Nat.mod_lt _ (by omega)
        have hgt : (v.n_ + 1) % 2 ^ w > v.m_ := by simpa using hg
        by_cases he : v.m_ + 1 < 2 ^ w
        · rw [Nat.mod_eq_of_lt he] at hc
          omega
        · omega
    · simp only [hc, if_false] at h
      exact construct_back_not_thrown _ x s h
  · simp only [hg, if_false] at h
    exact construct_back_not_thrown _ x s h

/-! ## The claims -/

/-- C1 (violated by the code): `size() <= capacity()` is not kept by the public
operations.  A default-constructed array after `push_back(5)` has `size() == 1` and
`capacity() == 0`, because `reserve` reallocates the block without assigning `m_`. -/
theorem C1_push_back_breaks_size_le_capacity :
    ∃ v i, (do let v0 ← ctor true 0 false (0 : Int)
               push_back true v0 5 : Except (Fault Int 32) (vector Int 32 × Nat)) = .ok (v, i)
      ∧ v.size = 1 ∧ v.capacity = 0 ∧ ¬ (v.size ≤ v.capacity) :=
  ⟨⟨1, 0, some [some 5]⟩, 0, rfl, rfl, rfl, by decide⟩

/-- C2 (violated by the code): after `push_back(5)` on a default-constructed array the
block has one slot, `size() == 1` and `capacity() == 0`; the following `push_back(7)`
asks `reserve` for `max(0, 1) = 1` slot again and constructs the new element at index 1,
outside the block, instead of yielding the elements 5, 7. -/
theorem C2_second_push_back_leaves_block :
    (do let v0 ← ctor true 0 false (0 : Int)
        push_back true v0 5 : Except (Fault Int 32) (vector Int 32 × Nat))
        = .ok (⟨1, 0, some [some 5]⟩, 0)
      ∧ push_back true (⟨1, 0, some [some 5]⟩ : vector Int 32) 7 = .error Fault.undefined :=
  ⟨rfl, rfl⟩

/-- C3 (violated by the code): `reserve(10)` on a default-constructed array obtains a
block of 10 slots but leaves `capacity() == 0`, not 10; in general a successful
`reserve(k)` returns with `capacity()` and `size()` as they were, whatever `k` is. -/
theorem C3_reserve_keeps_capacity :
    (∃ v, (do let v0 ← ctor true 0 false (0 : Int)
              reserve true v0 10 : Except (Fault Int 32) (vector Int 32)) = .ok v
      ∧ v.data_ = some (List.replicate 10 none) ∧ v.size = 0 ∧ v.capacity = 0)
    ∧ ∀ (v : vector Int 32) (k : Nat), ∃ v2, reserve true v k = .ok v2
        ∧ v2.capacity = v.capacity ∧ v2.size = v.size := by
  refine ⟨⟨⟨0, 0, some (List.replicate 10 none)⟩, rfl, rfl, rfl, rfl⟩, fun v k => ?_⟩
  unfold reserve
  split
  · exact ⟨_, rfl, rfl, rfl⟩
  · exact ⟨_, rfl, rfl, rfl⟩

/-- C4 (violated by the code): after `reserve(10)` on a default-constructed array the
guard `n_ + 1 > m_` is still true, and both `push_back(1)` and `emplace_back(1)` (either
build) reallocate the 10-slot block to a block of one slot. -/
theorem C4_insertion_after_reserve_reallocates :
    ∃ v, (do let v0 ← ctor true 0 false (0 : Int)
             reserve true v0 10 : Except (Fault Int 32) (vector Int 32)) = .ok v
      ∧ v.data_ = some (List.replicate 10 none)
      ∧ grows v = true
      ∧ push_back true v 1 = .ok (⟨1, 0, some [some 1]⟩, 0)
      ∧ emplace_back true true v 1 = .ok (⟨1, 1, some [some 1]⟩, 0)
      ∧ emplace_back false true v 1 = .ok (⟨1, 0, some [some 1]⟩, 0) :=
  ⟨⟨0, 0, some (List.replicate 10 none)⟩, rfl, rfl, rfl, rfl, rfl, rfl⟩

/-- C5 (violated by the code): on an array of 8 constructed elements with
`size() == capacity() == 8`, `push_back(9)` reallocates the block to
`max(floor(8 * 5/4), 8 + 1) = 10` slots, but `capacity()` afterwards is still 8. -/
theorem C5_push_back_grows_block_not_capacity :
    ∃ v i, (do let v0 ← ctor true 8 true (0 : Int)
               push_back true v0 9 : Except (Fault Int 32) (vector Int 32 × Nat)) = .ok (v, i)
      ∧ (v.data_.map List.length) = some 10 ∧ max (8 * 5 / 4) (8 + 1) = 10
      ∧ v.size = 9 ∧ v.capacity = 8 :=
  ⟨⟨9, 8, some (List.replicate 8 (some 0) ++ [some 9, none])⟩, 8, by rfl, by rfl, by rfl, rfl, rfl⟩

/-- C6 (counterexample): with a 32-bit counter, `2 ^ 32 - 1` calls of `emplace_back` on a
default-constructed array (non-checking build) reach `size() == capacity() == 2 ^ 32 - 1`
with a block of that many slots; at the next call `n_ + 1` wraps to 0, the guard is false,
nothing is reallocated and the element is constructed at index `2 ^ 32 - 1`, outside the
block (were the store ignored, `n_` would wrap to 0 while `m_` stays `2 ^ 32 - 1`). -/
theorem C6_counter_wraps :
    ∃ v, (do let v0 ← ctor true 0 false (0 : Int)
             emplace_backs true v0 (List.replicate (2 ^ 32 - 1) 0) :
               Except (Fault Int 32) (vector Int 32)) = .ok v
      ∧ v.size = 2 ^ 32 - 1 ∧ v.capacity = 2 ^ 32 - 1 ∧ grows v = false
      ∧ emplace_back true true v 0 = .error Fault.undefined := by
  obtain ⟨v, h1, h2, h3, h4, h5⟩ := @emplace_backs_fill Int 32 (le_refl 32) false 0 0
    (List.replicate (2 ^ 32 - 1) 0) (by rw [List.length_replicate]; norm_num)
  rw [List.length_replicate] at h2 h3
  exact ⟨v, h1, h2, h3, h4, h5⟩

/-- C6 (as amended): in the non-checking build, starting from a default-constructed array,
also when `reserve(k)` was called on it first, every run of fewer than `2 ^ w`
`emplace_back` calls (allocations succeeding) ends with `capacity() == size()`, the size
being the number of calls and the elements the inserted values in order.  Every initial
part of such a run is such a run, so this is the state after each call. -/
theorem C6_emplace_back_capacity_eq_size (k : Nat) (init : Bool) (x0 : T) (xs : List T)
    (h : xs.length < 2 ^ w) :
    (∃ v, (do let v0 ← ctor true 0 init x0
              emplace_backs true v0 xs : Except (Fault T w) (vector T w)) = .ok v
        ∧ v.capacity = v.size ∧ v.size = xs.length ∧ ∀ i, i < xs.length → v.elem i = xs[i]?)
    ∧ (∃ v, (do let v0 ← ctor true 0 init x0
                let v1 ← reserve true v0 k
                emplace_backs true v1 xs : Except (Fault T w) (vector T w)) = .ok v
        ∧ v.capacity = v.size ∧ v.size = xs.length ∧ ∀ i, i < xs.length → v.elem i = xs[i]?) := by
  constructor
  · rw [ctor_zero]
    exact emplace_backs_from_empty none xs h
  · rw [ctor_zero]
    by_cases hk : k > 0
    · have : (reserve true (⟨0, 0, none⟩ : vector T w) k)
          = .ok ⟨0, 0, some (realloc none k)⟩ := by simp [reserve, hk]; rfl
      simp only [bind, Except.bind, this]
      exact emplace_backs_from_empty _ xs h
    · have : (reserve true (⟨0, 0, none⟩ : vector T w) k) = .ok ⟨0, 0, none⟩ := by
        simp [reserve, hk]; rfl
      simp only [bind, Except.bind, this]
      exact emplace_backs_from_empty _ xs h

/-- C6 witness: `reserve(10)` on a default-constructed array, then `emplace_back(1)`. -/
theorem C6_witness :
    ([1] : List Int).length < 2 ^ 32
    ∧ ∃ v, (do let v0 ← ctor true 0 false (0 : Int)
               let v1 ← reserve true v0 10
               emplace_backs true v1 [1] : Except (Fault Int 32) (vector Int 32)) = .ok v
        ∧ v.capacity = v.size ∧ v.size = ([1] : List Int).length
        ∧ ∀ i, i < ([1] : List Int).length → v.elem i = ([1] : List Int)[i]? :=
  ⟨by decide, (@C6_emplace_back_capacity_eq_size Int 32 10 false 0 [1] (by decide)).2⟩

/-- C7 (violated by the code): the state reached by `push_back(5)` on a
default-constructed array has `capacity() == 0 < size() == 1`; `shrink_to_fit()` finds
`m_ > n_` false and returns with `capacity() == 0` and `size() == 1`. -/
theorem C7_shrink_to_fit_after_push_back :
    ∃ v, (do let v0 ← ctor true 0 false (0 : Int)
             let r ← push_back true v0 5
             shrink_to_fit true r.1 : Except (Fault Int 32) (vector Int 32)) = .ok v
      ∧ v.size = 1 ∧ v.capacity = 0 :=
  ⟨⟨1, 0, some [some 5]⟩, rfl, rfl, rfl⟩

/-- C8 (violated by the code): on the array of two elements 0, 0 (size and capacity 2),
`resize(5, true, 9)` reallocates the block to 5 slots, but `m_` stays 2, the fill loop
does not run, and `size() == capacity() == 2` with slots 2, 3, 4 unconstructed. -/
theorem C8_resize_beyond_capacity :
    (do let v0 ← ctor true 2 true (0 : Int)
        resize true v0 5 true 9 : Except (Fault Int 32) (vector Int 32))
      = .ok ⟨2, 2, some [some 0, some 0, none, none, none]⟩ :=
  rfl

/-- C9: for arrays `a`, `b` with live elements, of counter widths `w` and `w2`, `a == b`
returns a truth value, and it returns `true` if and only if `a.size() == b.size()` and
for every `i < a.size()` the elements `a[i]`, `b[i]` are not unequal under `operator!=`
of `T`; `==` is reflexive when `!=` is irreflexive and symmetric when `!=` is.  On the
list-constructed arrays: `[1,2,3] == [1,2,3]` is true, `[1,2,3] == [1,2]` and
`[1,2,3] == [1,2,4]` are false. -/
theorem C9_eq_iff {w2 : Nat} (ne : T → T → Bool) (a : vector T w) (b : vector T w2)
    (ha : a.live) (hb : b.live) :
    (∃ r, a.eq ne b = .ok r)
    ∧ (a.eq ne b = .ok true ↔ a.size = b.size ∧ ∀ i, i < a.size →
        ∃ x y, a.elem i = some x ∧ b.elem i = some y ∧ ne x y = false)
    ∧ ((∀ x, ne x x = false) → a.eq ne a = .ok true)
    ∧ ((∀ x y, ne x y = ne y x) → (b.eq ne a = .ok true ↔ a.eq ne b = .ok true))
    ∧ (do let u ← ctor_list true [1, 2, 3]
          let v ← ctor_list true [1, 2, 3]
          u.eq (fun x y => x != y) v : Except (Fault Int 32) Bool) = .ok true
    ∧ (do let u ← ctor_list true [1, 2, 3]
          let v ← ctor_list true [1, 2]
          u.eq (fun x y => x != y) v : Except (Fault Int 32) Bool) = .ok false
    ∧ (do let u ← ctor_list true [1, 2, 3]
          let v ← ctor_list true [1, 2, 4]
          u.eq (fun x y => x != y) v : Except (Fault Int 32) Bool) = .ok false := by
  refine ⟨eq_total ne a b ha hb, eq_true_iff ne a b, ?_, ?_, by rfl, by rfl, by rfl⟩
  · intro hr
    rw [eq_true_iff]
    refine ⟨rfl, fun i hi => ?_⟩
    obtain ⟨x, hx⟩ := Option.isSome_iff_exists.mp (ha i hi)
    exact ⟨x, x, hx, hx, hr x⟩
  · intro hsym
    rw [eq_true_iff, eq_true_iff]
    constructor
    · rintro ⟨hs, h⟩
      refine ⟨hs.symm, fun i hi => ?_⟩
      obtain ⟨x, y, hx, hy, hxy⟩ := h i (by rw [hs]; exact hi)
      exact ⟨y, x, hy, hx, by rw [hsym]; exact hxy⟩
    · rintro ⟨hs, h⟩
      refine ⟨hs.symm, fun i hi => ?_⟩
      obtain ⟨x, y, hx, hy, hxy⟩ := h i (by rw [hs]; exact hi)
      exact ⟨y, x, hy, hx, by rw [hsym]; exact hxy⟩

/-- C9 witness: `[1,2,3]` with a 32-bit counter against `[1,2,4]` with an 8-bit counter. -/
theorem C9_witness :
    (⟨3, 3, some [some 1, some 2, some 3]⟩ : vector Int 32).live
    ∧ (⟨3, 3, some [some 1, some 2, some 4]⟩ : vector Int 8).live
    ∧ ((⟨3, 3, some [some 1, some 2, some 3]⟩ : vector Int 32).eq (fun x y => x != y)
          (⟨3, 3, some [some 1, some 2, some 4]⟩ : vector Int 8) = .ok true ↔
        (⟨3, 3, some [some 1, some 2, some 3]⟩ : vector Int 32).size
            = (⟨3, 3, some [some 1, some 2, some 4]⟩ : vector Int 8).size
          ∧ ∀ i, i < (⟨3, 3, some [some 1, some 2, some 3]⟩ : vector Int 32).size →
            ∃ x y, (⟨3, 3, some [some 1, some 2, some 3]⟩ : vector Int 32).elem i = some x
              ∧ (⟨3, 3, some [some 1, some 2, some 4]⟩ : vector Int 8).elem i = some y
              ∧ (x != y) = false) :=
  ⟨by decide, by decide,
    (@C9_eq_iff Int 32 8 (fun x y => x != y) ⟨3, 3, some [some 1, some 2, some 3]⟩
      ⟨3, 3, some [some 1, some 2, some 4]⟩ (by decide) (by decide)).2.1⟩

/-- C10 (violated by the code): the copy constructor assigns with `std::copy` onto the
raw block it has just obtained.  For an array of one `std::vector<int>` (an element type
that is not trivially copyable, modelled by a list) the first assignment acts on storage
that holds no element and the call is undefined, instead of yielding a copy equal to the
source; for an array of `int` the same call yields the copy. -/
theorem C10_copy_constructor_assigns_onto_raw_storage :
    (ctor true 1 true [7] : Except (Fault (List Int) 32) (vector (List Int) 32))
        = .ok ⟨1, 1, some [some [7]]⟩
    ∧ (assign_at false (some (malloc (List Int) 1)) 0 [7] :
        Except (Fault (List Int) 32) (Block (List Int))) = .error Fault.undefined
    ∧ ctor_copy false true (⟨1, 1, some [some [7]]⟩ : vector (List Int) 32)
        = .error Fault.undefined
    ∧ ctor_copy true true (⟨1, 1, some [some 7]⟩ : vector Int 32)
        = .ok ⟨1, 1, some [some 7]⟩ :=
  ⟨by rfl, by rfl, by rfl, by rfl⟩

/-- C11: for every array `A`, move construction gives the new array the size, the
capacity, the buffer and so the elements `A` had, and leaves `A` with `size() == 0`,
`capacity() == 0` and the null buffer. -/
theorem C11_move_constructor (A : vector T w) :
    (ctor_move A).1.size = A.size ∧ (ctor_move A).1.capacity = A.capacity
      ∧ (ctor_move A).1.data_ = A.data_
      ∧ (∀ i, (ctor_move A).1.elem i = A.elem i)
      ∧ (ctor_move A).2.size = 0 ∧ (ctor_move A).2.capacity = 0
      ∧ (ctor_move A).2.data_ = none :=
  ⟨rfl, rfl, rfl, fun _ => rfl, rfl, rfl, rfl⟩

/-- C12: for two arrays `dst`, `src` (distinct objects) with live elements,
`src.size() <= src.capacity()` and `src.size() <= dst.size()`, the copy assignment
`dst = src` (reallocation succeeding) leaves `dst` with the size and capacity of `src` and,
below `src.size()`, with the elements `dst` held before; `src` keeps its counters and its
elements below `src.size()` become those old elements of `dst`.  The bound
`dst.size() <= dst.capacity()` of the claim is not needed. -/
theorem C12_copy_assignment (dst src : vector T w) (hd : dst.live) (hs : src.live)
    (hsc : src.size ≤ src.capacity)
    (hle : src.size ≤ dst.size) :
    ∃ dst2 src2, assign_copy true dst src = .ok (dst2, src2)
      ∧ dst2.size = src.size ∧ dst2.capacity = src.capacity
      ∧ (∀ i, i < src.size → dst2.elem i = dst.elem i)
      ∧ (∀ i, i < src.size → src2.elem i = dst.elem i)
      ∧ src2.size = src.size ∧ src2.capacity = src.capacity := by
  obtain ⟨d, hdef, hkeep⟩ : ∃ d : Option (Block T),
      (if dst.m_ < src.m_ then some (realloc dst.data_ src.m_) else dst.data_) = d
        ∧ ∀ i, i < src.n_ → slot d i = slot dst.data_ i := by
    refine ⟨_, rfl, fun i hi => ?_⟩
    by_cases hm : dst.m_ < src.m_
    · simp only [hm, if_true]
      exact slot_realloc _ _ _ (Nat.lt_of_lt_of_le hi hsc)
    · simp only [hm, if_false]
  obtain ⟨d2, hrun, hcopied⟩ := @copy_range_into T w d src.data_ src.n_ (live_le_length hs)
    (fun j hj => by rw [hkeep j hj]; exact hd j (Nat.lt_of_lt_of_le hj hle))
  refine ⟨⟨src.n_, src.m_, d⟩, ⟨src.n_, src.m_, d2⟩, ?_, rfl, rfl, ?_, ?_, rfl, rfl⟩
  · simp only [assign_copy, if_true, hdef, hrun, bind, Except.bind, pure, Except.pure]
  · intro i hi
    exact hkeep i hi
  · intro i hi
    exact (hcopied i hi).trans (hkeep i hi)

/-- C12 witness: `dst` holding 1, 2, 3 and `src` holding 8, 9. -/
theorem C12_witness :
    (⟨3, 3, some [some 1, some 2, some 3]⟩ : vector Int 32).live
    ∧ (⟨2, 2, some [some 8, some 9]⟩ : vector Int 32).live
    ∧ (⟨2, 2, some [some 8, some 9]⟩ : vector Int 32).size
        ≤ (⟨2, 2, some [some 8, some 9]⟩ : vector Int 32).capacity
    ∧ (⟨2, 2, some [some 8, some 9]⟩ : vector Int 32).size
        ≤ (⟨3, 3, some [some 1, some 2, some 3]⟩ : vector Int 32).size
    ∧ ∃ dst2 src2, assign_copy true (⟨3, 3, some [some 1, some 2, some 3]⟩ : vector Int 32)
          ⟨2, 2, some [some 8, some 9]⟩ = .ok (dst2, src2)
      ∧ dst2.size = (⟨2, 2, some [some 8, some 9]⟩ : vector Int 32).size
      ∧ dst2.capacity = (⟨2, 2, some [some 8, some 9]⟩ : vector Int 32).capacity
      ∧ (∀ i, i < (⟨2, 2, some [some 8, some 9]⟩ : vector Int 32).size →
          dst2.elem i = (⟨3, 3, some [some 1, some 2, some 3]⟩ : vector Int 32).elem i)
      ∧ (∀ i, i < (⟨2, 2, some [some 8, some 9]⟩ : vector Int 32).size →
          src2.elem i = (⟨3, 3, some [some 1, some 2, some 3]⟩ : vector Int 32).elem i)
      ∧ src2.size = (⟨2, 2, some [some 8, some 9]⟩ : vector Int 32).size
      ∧ src2.capacity = (⟨2, 2, some [some 8, some 9]⟩ : vector Int 32).capacity :=
  ⟨by decide, by decide, by decide, by decide,
    @C12_copy_assignment Int 32 ⟨3, 3, some [some 1, some 2, some 3]⟩
      ⟨2, 2, some [some 8, some 9]⟩ (by decide) (by decide) (by decide) (by decide)⟩

/-- C13: for two arrays `dst`, `src` (distinct objects), the move assignment
`dst = std::move(src)` gives `dst` the size, the capacity, the buffer and so the elements
`src` had, and leaves `src` with `size() == 0`, `capacity() == 0` and the null buffer. -/
theorem C13_move_assignment (dst src : vector T w) :
    (assign_move dst src).1.size = src.size ∧ (assign_move dst src).1.capacity = src.capacity
      ∧ (assign_move dst src).1.data_ = src.data_
      ∧ (∀ i, (assign_move dst src).1.elem i = src.elem i)
      ∧ (assign_move dst src).2.size = 0 ∧ (assign_move dst src).2.capacity = 0
      ∧ (assign_move dst src).2.data_ = none :=
  ⟨rfl, rfl, rfl, fun _ => rfl, rfl, rfl, rfl⟩

/-- C14 (counterexample): with a 64-bit counter and 4-byte elements the count `2 ^ 62`
makes the byte count `4 * 2 ^ 62` wrap to 0 in `size_t`, the block has no slot and the
construction of element 0 is undefined; and for an argument that construction changes
(an rvalue `std::unique_ptr<int>` holding 5, modelled by an optional value that the move
leaves empty) two elements are built as 5 and the null pointer, the second not being the
value constructed from the argument as passed. -/
theorem C14_byte_count_wraps :
    (ctor_args 4 true (2 ^ 62) true (fun a : Int => (a, a)) 0 :
        Except (Fault Int 64) (vector Int 64)) = .error Fault.undefined
    ∧ (ctor_args 8 true 2 true (fun a : Option Int => (a, none)) (some 5) :
        Except (Fault (Option Int) 32) (vector (Option Int) 32))
        = .ok ⟨2, 2, some [some (some 5), some none]⟩ := by
  refine ⟨?_, by rfl⟩
  have h : (2 : Nat) ^ 62 = (2 ^ 62 - 1) + 1 := by norm_num
  rw [ctor_args, h, forward_range]
  rfl

/-- C14 (as amended): for every count `n` whose byte count `sizeof(T) * n` fits `size_t`
and every constructor argument that constructing an element leaves unchanged, the sized
constructor with `init == true` (allocation succeeding) yields an array with
`size() == n`, `capacity() == n` and every element below `n` equal to the value `x`
constructed from the argument; with `n == 0` it has the null buffer. -/
theorem C14_sized_constructor (sz n : Nat) (make : Args → T × Args) (a : Args) (x : T)
    (hsz : 0 < sz) (hfit : sz * n < 2 ^ 64) (hkeep : make a = (x, a)) :
    ∃ v : vector T w, ctor_args sz true n true make a = .ok v ∧ v.size = n ∧ v.capacity = n
      ∧ (∀ i, i < n → v.elem i = some x)
      ∧ (n = 0 → v.data_ = none) := by
  rw [ctor_args_eq_ctor sz true n true make a x hsz hfit hkeep]
  exact ctor_init_fills n x

/-- C14 witness: four 4-byte integers built from the value 7. -/
theorem C14_witness :
    0 < 4 ∧ 4 * 4 < 2 ^ 64 ∧ (fun a : Int => (a, a)) 7 = (7, 7)
    ∧ ∃ v : vector Int 32, ctor_args 4 true 4 true (fun a : Int => (a, a)) 7 = .ok v
      ∧ v.size = 4 ∧ v.capacity = 4
      ∧ (∀ i, i < 4 → v.elem i = some 7)
      ∧ (4 = 0 → v.data_ = none) :=
  ⟨by decide, by decide, rfl,
    @C14_sized_constructor Int 32 Int 4 4 (fun a : Int => (a, a)) 7 7 (by decide) (by decide)
      rfl⟩

/-- C15: for every array whose first `size()` slots lie in its block, `zero()` returns
with `size()` and `capacity()` unchanged and every element below `size()` equal to the
all-zero-bytes value (0 for integers). -/
theorem C15_zero (z : T) (v : vector T w) (h : v.n_ ≤ (v.data_.getD []).length) :
    ∃ v2, zero z v = .ok v2 ∧ v2.size = v.size ∧ v2.capacity = v.capacity
      ∧ ∀ i, i < v.size → v2.elem i = some z := by
  cases hd : v.data_ with
  | none =>
    have hn : v.n_ = 0 := by simpa [hd] using h
    refine ⟨v, ?_, rfl, rfl, fun i hi => ?_⟩
    · cases v
      simp_all [zero, construct_range, bind, Except.bind, pure, Except.pure]
    · simp [size, hn] at hi
  | some d =>
    obtain ⟨d2, hrun, _, hset, _⟩ := @construct_range_spec T w z v.n_ 0 d
      (by simpa [hd] using h)
    refine ⟨⟨v.n_, v.m_, some d2⟩, ?_, rfl, rfl, fun i hi => hset i (Nat.zero_le _) ?_⟩
    · simp only [zero, hd, hrun, bind, Except.bind, pure, Except.pure]
    · simpa using hi

/-- C15 witness: the initialized array of 4 integers (each 7) has all four elements equal
to 0 after `zero()`. -/
theorem C15_witness :
    (ctor true 4 true (7 : Int) : Except (Fault Int 32) (vector Int 32))
        = .ok ⟨4, 4, some [some 7, some 7, some 7, some 7]⟩
    ∧ (⟨4, 4, some [some 7, some 7, some 7, some 7]⟩ : vector Int 32).n_
        ≤ ((⟨4, 4, some [some 7, some 7, some 7, some 7]⟩ : vector Int 32).data_.getD []).length
    ∧ ∃ v2, zero 0 (⟨4, 4, some [some 7, some 7, some 7, some 7]⟩ : vector Int 32) = .ok v2
      ∧ v2.size = (⟨4, 4, some [some 7, some 7, some 7, some 7]⟩ : vector Int 32).size
      ∧ v2.capacity = (⟨4, 4, some [some 7, some 7, some 7, some 7]⟩ : vector Int 32).capacity
      ∧ ∀ i, i < (⟨4, 4, some [some 7, some 7, some 7, some 7]⟩ : vector Int 32).size →
          v2.elem i = some 0 :=
  ⟨by rfl, by decide,
    @C15_zero Int 32 0 ⟨4, 4, some [some 7, some 7, some 7, some 7]⟩ (by decide)⟩

/-- C16 (violated by the code): in the checking build, `emplace_back` on an array with
`size() == capacity() == 2 ^ w - 1` never throws the overflow error, for any width,
buffer, value and allocator outcome.  For 8 and 16 bits the guard is true but `m_ + 1` is
computed in `int` and is not below `m_`; for 32 and 64 bits `n_ + 1` wraps to 0, the guard
is false and the test is not reached. -/
theorem C16_overflow_check_never_fires :
    (∀ (w : Nat) (ok : Bool) (d : Option (Block T)) (x : T) (s : vector T w),
        emplace_back false ok (⟨2 ^ w - 1, 2 ^ w - 1, d⟩ : vector T w) x
          ≠ .error (Fault.runtime_error s))
    ∧ grows (⟨2 ^ 8 - 1, 2 ^ 8 - 1, none⟩ : vector T 8) = true
    ∧ ¬ (succ_promoted 8 (2 ^ 8 - 1) < 2 ^ 8 - 1)
    ∧ grows (⟨2 ^ 16 - 1, 2 ^ 16 - 1, none⟩ : vector T 16) = true
    ∧ ¬ (succ_promoted 16 (2 ^ 16 - 1) < 2 ^ 16 - 1)
    ∧ grows (⟨2 ^ 32 - 1, 2 ^ 32 - 1, none⟩ : vector T 32) = false
    ∧ grows (⟨2 ^ 64 - 1, 2 ^ 64 - 1, none⟩ : vector T 64) = false := by
  refine ⟨fun w ok d x s => ?_, by rfl, by decide, by rfl, by decide,
    by norm_num [grows, succ_promoted], by norm_num [grows, succ_promoted]⟩
  exact emplace_back_check_dead ok _ x s (Nat.sub_lt (Nat.two_pow_pos w) (by decide))

/-- C17 (violated by the code): when the reallocation fails, `emplace_back` (either build)
on the array holding 5 and the copy assignment of that array to an empty one store the
null pointer in `data_` and go on to access elements through it, with no error
signalled; `reserve`, `push_back` and `shrink_to_fit` throw `std::bad_alloc` and leave
the array as it was. -/
theorem C17_unchecked_realloc :
    emplace_back true false (⟨1, 1, some [some 5]⟩ : vector Int 32) 7 = .error Fault.undefined
    ∧ emplace_back false false (⟨1, 1, some [some 5]⟩ : vector Int 32) 7
        = .error Fault.undefined
    ∧ assign_copy false (⟨0, 0, none⟩ : vector Int 32) ⟨1, 1, some [some 5]⟩
        = .error Fault.undefined
    ∧ reserve false (⟨1, 1, some [some 5]⟩ : vector Int 32) 10
        = .error (Fault.bad_alloc ⟨1, 1, some [some 5]⟩)
    ∧ push_back false (⟨1, 1, some [some 5]⟩ : vector Int 32) 7
        = .error (Fault.bad_alloc ⟨1, 1, some [some 5]⟩)
    ∧ shrink_to_fit false (⟨1, 2, some [some 5, none]⟩ : vector Int 32)
        = .error (Fault.bad_alloc ⟨1, 2, some [some 5, none]⟩) :=
  ⟨by rfl, by rfl, by rfl, by rfl, by rfl, by rfl⟩

/-- C18 (violated by the code): on a default-constructed array `emplace_back(1)` returns
normally in both builds with the same size and element, but with `capacity() == 0` in the
checking build and `capacity() == 1` in the non-checking build: `++m_` is compiled in the
non-checking build only. -/
theorem C18_builds_differ_in_capacity :
    (do let v0 ← ctor true 0 false (0 : Int)
        emplace_back false true v0 1 : Except (Fault Int 32) (vector Int 32 × Nat))
        = .ok (⟨1, 0, some [some 1]⟩, 0)
    ∧ (do let v0 ← ctor true 0 false (0 : Int)
          emplace_back true true v0 1 : Except (Fault Int 32) (vector Int 32 × Nat))
        = .ok (⟨1, 1, some [some 1]⟩, 0) :=
  ⟨by rfl, by rfl⟩

/-- C19 (violated by the code): after `push_back(5)` on a default-constructed array,
`push_back(7)` takes the reallocating branch, asks `reserve` for `max(0, 1) = 1` slot,
and constructs its element at index `n_ = 1` of the one-slot block, which is not below the
slot count. -/
theorem C19_push_back_constructs_past_block :
    ∃ v1 v2, (do let v0 ← ctor true 0 false (0 : Int)
                 push_back true v0 5 : Except (Fault Int 32) (vector Int 32 × Nat)) = .ok (v1, 0)
      ∧ grows v1 = true ∧ scaled 32 v1.m_ = some 0 ∧ succ_promoted 32 v1.m_ = 1
      ∧ reserve true v1 (max 0 1) = .ok v2
      ∧ v2.data_.map List.length = some 1 ∧ v2.size = 1
      ∧ (construct_at v2.data_ v2.n_ 7 : Except (Fault Int 32) (Block Int))
          = .error Fault.undefined :=
  ⟨⟨1, 0, some [some 5]⟩, ⟨1, 0, some [some 5]⟩, by rfl, by rfl, by rfl, by rfl, by rfl, by rfl,
    by rfl, by rfl⟩

/-- C20: in either build, every object reachable from the constructors by the public
operations while sizes stay below the maximum of the counter type has
`capacity() <= size()`. -/
theorem C20_capacity_le_size (ndebug : Bool) (v : vector T w) (h : Reach ndebug v) :
    v.capacity ≤ v.size :=
  (reach_invariant h).1

/-- C20 witness: the array reached by `push_back(5)` on a default-constructed array. -/
theorem C20_witness :
    Reach true (⟨1, 0, some [some 5]⟩ : vector Int 32)
    ∧ (⟨1, 0, some [some 5]⟩ : vector Int 32).capacity
        ≤ (⟨1, 0, some [some 5]⟩ : vector Int 32).size :=
  have h : Reach true (⟨1, 0, some [some 5]⟩ : vector Int 32) :=
    Reach.push_back true ⟨0, 0, none⟩ _ 5
      (Reach.ctor true 0 false 0 _ (by rfl) (by norm_num [below_max]))
      (by rfl) (by norm_num [below_max])
  ⟨h, @C20_capacity_le_size Int 32 true _ h⟩

end lazy
